import Mathlib

/-!
# quiz-app: leaderboard cache and per-topic broadcast hubs

A shallow embedding of the Go backend (`internal/service`, `internal/repository`,
`internal/model`).  Stateful code is written in explicit state-passing style:
a call takes the state of the backend it talks to and returns its result
together with the new state.  External systems are modelled by the part of
their contract the code relies on:

* Redis: string keys and sorted sets, every command may fail (fault schedule);
  key expiry is not modelled (no time passes inside a scenario);
* Postgres/gorm: the four tables the queries read, every query may fail;
* `github.com/google/uuid`: taken as a parameter (`UuidLib`), with one concrete
  model `googleUuid` used to evaluate examples;
* `encoding/json`: the text stored for a quiz is modelled by the quiz it
  encodes (`CacheValue.quizJson`), any other text by `CacheValue.text`; the
  encoder of the viewer message is a parameter.

Go `int` values are modelled by `Int`.  A sorted-set score is a `float64`; the
program only stores scores converted from integers, so a score is modelled by
the integer value of that `float64`, with the conversions `float64(n)`
(`float64OfInt`, rounding above `2^53`) and `int(f)` (`intOfFloat64`).
-/

namespace QuizApp

/-! ## Go strings -/

/-- Split a character list at every occurrence of `sep`
(the result always has one more part than there are separators). -/
def splitOn (sep : Char) : List Char → List (List Char)
  | [] => [[]]
  | c :: cs =>
    if c = sep then [] :: splitOn sep cs
    else
      match splitOn sep cs with
      | [] => [[c]]
      | p :: ps => (c :: p) :: ps

/-- Go `strings.Split(s, sep)` for a one-character separator. -/
def strings.Split (s : String) (sep : Char) : List String :=
  (splitOn sep s.data).map String.mk

/-- Bytewise comparison `a ≤ b` of two strings, as Redis orders the members of a
sorted set (memcmp); on UTF-8 text this is the order of the code points. -/
def memcmpLe : List Char → List Char → Bool
  | [], _ => true
  | _ :: _, [] => false
  | a :: as, b :: bs =>
    if a.toNat < b.toNat then true
    else if b.toNat < a.toNat then false
    else memcmpLe as bs

/-! ## UUIDs -/

/-- A UUID (`[16]byte` in Go), as the 128-bit number its bytes spell.
`uuid.Nil` is `0`. -/
abbrev UUID := Nat

/-- The part of `github.com/google/uuid` the program uses. -/
structure UuidLib where
  /-- `uuid.Parse(s)`: the value returned and whether `err == nil`. -/
  Parse : String → UUID × Bool
  /-- `UUID.String()`, also what `%s` prints. -/
  ToString : UUID → String

/-- The UTF-8 bytes of a character. -/
def utf8Bytes (c : Char) : List Nat :=
  let n := c.toNat
  if n < 128 then [n]
  else if n < 2048 then [192 + n / 64, 128 + n % 64]
  else if n < 65536 then [224 + n / 4096, 128 + n / 64 % 64, 128 + n % 64]
  else [240 + n / 262144, 128 + n / 4096 % 64, 128 + n / 64 % 64, 128 + n % 64]

/-- The bytes of a Go string (Go indexes and measures strings by bytes). -/
def bytesOf (s : String) : List Nat := (s.data.map utf8Bytes).flatten

/-- The table `xvalues` of the library: the value of a hexadecimal digit, 255
for any other byte. -/
def xvalues (b : Nat) : Nat :=
  if 48 ≤ b ∧ b ≤ 57 then b - 48
  else if 97 ≤ b ∧ b ≤ 102 then b - 87
  else if 65 ≤ b ∧ b ≤ 70 then b - 55
  else 255

/-- The function `xtob` of the library: the byte `(b1 << 4) | b2` of two digit
values, and whether both bytes were hexadecimal digits. -/
def xtob (x1 x2 : Nat) : Nat × Bool :=
  let b1 := xvalues x1
  let b2 := xvalues x2
  (if b2 = 255 then 255 else b1 * 16 % 256 + b2, decide (b1 ≠ 255 ∧ b2 ≠ 255))

/-- The decoding loops of `uuid.Parse`: the bytes at the positions `x`, `x + 1`
are decoded for each position in turn, `acc` being the bytes of the UUID set so
far; at the first pair that is not hexadecimal the loop returns with an error
(the byte of that pair is stored too when `keepBad`). -/
def decodeAt (s : List Nat) (keepBad : Bool) : List Nat → List Nat → List Nat × Bool
  | [], acc => (acc, true)
  | x :: rest, acc =>
    if (xtob (s.getD x 0) (s.getD (x + 1) 0)).2 then
      decodeAt s keepBad rest (acc ++ [(xtob (s.getD x 0) (s.getD (x + 1) 0)).1])
    else
      (if keepBad then acc ++ [(xtob (s.getD x 0) (s.getD (x + 1) 0)).1] else acc, false)

/-- The UUID whose first bytes are `bs`, the others being zero. -/
def uuidOfBytes (bs : List Nat) : UUID :=
  (bs ++ List.replicate (16 - bs.length) 0).foldl (fun a b => a * 256 + b) 0

/-- The lower-case hexadecimal digit of a number below 16. -/
def hexDigit (n : Nat) : Char :=
  if n < 10 then Char.ofNat (48 + n) else Char.ofNat (87 + n)

/-- The `k` low bytes of `n` in hexadecimal, most significant first. -/
def hexEncode : Nat → Nat → List Char
  | 0, _ => []
  | k + 1, n => hexEncode k (n / 256) ++ [hexDigit (n / 16 % 16), hexDigit (n % 16)]

/-- The canonical text `xxxxxxxx-xxxx-xxxx-xxxx-xxxxxxxxxxxx` of a UUID. -/
def canonicalText (u : UUID) : List Char :=
  let h := hexEncode 16 u
  h.take 8 ++ [ '-' ] ++ (h.drop 8).take 4 ++ [ '-' ] ++ (h.drop 12).take 4 ++ [ '-' ]
    ++ (h.drop 16).take 4 ++ [ '-' ] ++ h.drop 20

/-- The last part of `uuid.Parse`, on the bytes of the form
`xxxxxxxx-xxxx-xxxx-xxxx-xxxxxxxxxxxx`: dashes at positions 8, 13, 18 and 23,
then sixteen pairs of hexadecimal digits. -/
def parseDashed (s : List Nat) : UUID × Bool :=
  if s.getD 8 0 ≠ 45 ∨ s.getD 13 0 ≠ 45 ∨ s.getD 18 0 ≠ 45 ∨ s.getD 23 0 ≠ 45 then (0, false)
  else
    (uuidOfBytes
        (decodeAt s false [0, 2, 4, 6, 9, 11, 14, 16, 19, 21, 24, 26, 28, 30, 32, 34] []).1,
      (decodeAt s false [0, 2, 4, 6, 9, 11, 14, 16, 19, 21, 24, 26, 28, 30, 32, 34] []).2)

/-- An upper-case ASCII letter made lower-case (`strings.EqualFold` against
the ASCII text `urn:uuid:`). -/
def asciiLower (b : Nat) : Nat := if 65 ≤ b ∧ b ≤ 90 then b + 32 else b

/-- A model of `uuid.Parse` of `github.com/google/uuid`, by the length of the
text in bytes: 36 bytes are the dashed form; 45 bytes are the dashed form
behind `urn:uuid:` (in any case); 38 bytes are the dashed form behind one byte
(the last byte is not read); 32 bytes are sixteen pairs of hexadecimal digits;
any other length is an error.  With an error the library returns the bytes
set so far, the others zero. -/
def googleParse (s : String) : UUID × Bool :=
  let bs := bytesOf s
  if bs.length = 36 then parseDashed bs
  else if bs.length = 45 then
    if (bs.take 9).map asciiLower = bytesOf "urn:uuid:" then parseDashed (bs.drop 9)
    else (0, false)
  else if bs.length = 38 then parseDashed (bs.drop 1)
  else if bs.length = 32 then
    (uuidOfBytes
        (decodeAt bs true [0, 2, 4, 6, 8, 10, 12, 14, 16, 18, 20, 22, 24, 26, 28, 30] []).1,
      (decodeAt bs true [0, 2, 4, 6, 8, 10, 12, 14, 16, 18, 20, 22, 24, 26, 28, 30] []).2)
  else (0, false)

/-- The concrete model of the UUID library. -/
def googleUuid : UuidLib where
  Parse := googleParse
  ToString := fun u => String.mk (canonicalText u)

/-! ## `internal/model` -/

/-- Go `error` values. -/
abbrev Err := String

deriving instance DecidableEq for Except

/-- `time.Time`, as an abstract timestamp. -/
abbrev Time := Nat

structure User where
  ID : UUID
  Username : String
  CreatedAt : Time
  deriving DecidableEq, Repr

structure Question where
  ID : UUID
  QuizSessionID : UUID
  QuestionText : String
  Options : List String
  CorrectAnswer : String
  Points : Int
  Order : Int
  deriving DecidableEq, Repr

structure QuizSession where
  ID : UUID
  Title : String
  Status : String
  Questions : List Question
  CreatedAt : Time
  ExpiresAt : Time
  deriving DecidableEq, Repr

structure UserAnswer where
  ID : UUID
  UserID : UUID
  QuestionID : UUID
  Answer : String
  IsCorrect : Bool
  AnsweredAt : Time
  deriving DecidableEq, Repr

structure Participant where
  UserID : UUID
  QuizID : UUID
  Username : String
  Score : Int
  JoinedAt : Time
  deriving DecidableEq, Repr

structure SubmitAnswerRequest where
  QuestionID : String
  Answer : String
  deriving DecidableEq, Repr

structure SubmitAnswerResponse where
  Correct : Bool
  NewScore : Int
  Points : Int
  deriving DecidableEq, Repr

structure LeaderboardEntry where
  UserID : UUID
  Username : String
  Score : Int
  Rank : Int
  deriving DecidableEq, Repr

/-- The message pushed to viewers (the field `Type` is spelled `MsgType`). -/
structure LeaderboardUpdate where
  MsgType : String
  Leaderboard : List LeaderboardEntry
  UpdatedAt : Time
  deriving DecidableEq, Repr

/-! ## Conversions between `int` and `float64` -/

/-- The number of low bits of the natural number `a` that a `float64` cannot
keep: `0` when `a < 2^53`, else the bit length of `a` minus 53 (`fuel` bounds
the search; 64 suffices for a Go `int`). -/
def float64Drop : Nat → Nat → Nat
  | 0, _ => 0
  | fuel + 1, a => if a < 2 ^ 53 then 0 else 1 + float64Drop fuel (a / 2)

/-- The Go conversion `float64(n)` of an `int`: the nearest `float64`, ties to
the even significand.  The result is an integer and is given as such. -/
def float64OfInt (n : Int) : Int :=
  let a := n.natAbs
  let unit := 2 ^ float64Drop 64 a
  let q := a / unit
  let r := a % unit
  let rounded :=
    if 2 * r < unit then q
    else if unit < 2 * r then q + 1
    else if q % 2 = 0 then q
    else q + 1
  if n < 0 then -((rounded * unit : Nat) : Int) else ((rounded * unit : Nat) : Int)

/-- The Go conversion `int(f)` of a `float64` with an integer value.  Outside
the range of `int` the language leaves the result to the implementation; on
amd64 it is the least `int`. -/
def intOfFloat64 (f : Int) : Int :=
  if -(2 ^ 63) ≤ f ∧ f < 2 ^ 63 then f else -(2 ^ 63)

/-! ## Redis -/

/-- A sorted set: members with their scores (the integer value of the
`float64`); a member occurs at most once. -/
abbrev ZSet := List (String × Int)

/-- The value of a string key: the JSON text that `json.Marshal` produces for a
quiz session, represented by that session, or any other text. -/
inductive CacheValue where
  | quizJson (session : QuizSession)
  | text (data : String)
  deriving DecidableEq, Repr

/-- The Redis server as the program sees it.  `down n` tells whether the
`n`-th command sent to the server fails (connection error); `calls` counts the
commands sent so far. -/
structure Redis where
  strs : List (String × CacheValue)
  zsets : List (String × ZSet)
  calls : Nat
  down : Nat → Bool

/-- Value bound to a key in an association list. -/
def kvGet {β : Type} (k : String) : List (String × β) → Option β
  | [] => none
  | (k1, v) :: rest => if k1 = k then some v else kvGet k rest

/-- Remove a key from an association list. -/
def kvDel {β : Type} (k : String) (l : List (String × β)) : List (String × β) :=
  l.filter (fun kv => decide (kv.1 ≠ k))

/-- Bind a key in an association list, replacing an older binding. -/
def kvSet {β : Type} (k : String) (v : β) (l : List (String × β)) : List (String × β) :=
  (k, v) :: kvDel k l

/-- The server state after one more command was sent. -/
def Redis.tick (r : Redis) : Redis := { r with calls := r.calls + 1 }

/-- Whether the command sent now fails. -/
def Redis.failing (r : Redis) : Bool := r.down r.calls

/-- The command `GET key`; a missing key is the error `redis.Nil`. -/
def Redis.Get (r : Redis) (key : String) : Except Err CacheValue × Redis :=
  if r.failing then (.error "redis: connection error", r.tick)
  else
    match kvGet key r.strs with
    | some v => (.ok v, r.tick)
    | none => (.error "redis: nil", r.tick)

/-- The command `SET key value EX ttl`. -/
def Redis.Set (r : Redis) (key : String) (value : CacheValue) : Option Err × Redis :=
  if r.failing then (some "redis: connection error", r.tick)
  else (none, { r.tick with strs := kvSet key value r.strs, zsets := kvDel key r.zsets })

/-- The command `DEL key`. -/
def Redis.Del (r : Redis) (key : String) : Option Err × Redis :=
  if r.failing then (some "redis: connection error", r.tick)
  else (none, { r.tick with strs := kvDel key r.strs, zsets := kvDel key r.zsets })

/-- Add a member to a sorted set, or change the score of a member it holds. -/
def zadd (member : String) (score : Int) (z : ZSet) : ZSet :=
  if z.any (fun e => decide (e.1 = member)) then
    z.map (fun e => if e.1 = member then (member, score) else e)
  else z ++ [(member, score)]

/-- The command `ZADD key score member`. -/
def Redis.ZAdd (r : Redis) (key : String) (score : Int) (member : String) : Option Err × Redis :=
  if r.failing then (some "redis: connection error", r.tick)
  else
    let z := (kvGet key r.zsets).getD []
    (none, { r.tick with zsets := kvSet key (zadd member score z) r.zsets })

/-- The command `EXPIRE key ttl`: expiry is not modelled, the command only
counts as a command sent. -/
def Redis.Expire (r : Redis) (_key : String) : Option Err × Redis :=
  if r.failing then (some "redis: connection error", r.tick) else (none, r.tick)

/-- The order in which `ZREVRANGE` lists two elements: higher score first, and
for equal scores the greater member first. -/
def zrevBefore (a b : String × Int) : Prop :=
  b.2 < a.2 ∨ (b.2 = a.2 ∧ memcmpLe b.1.data a.1.data = true)

instance : DecidableRel zrevBefore := fun a b => by
  unfold zrevBefore
  exact inferInstance

/-- The command `ZREVRANGE key 0 -1 WITHSCORES`; a missing key is the empty set. -/
def Redis.ZRevRangeWithScores (r : Redis) (key : String) : Except Err (List (String × Int)) × Redis :=
  if r.failing then (.error "redis: connection error", r.tick)
  else (.ok (((kvGet key r.zsets).getD []).insertionSort zrevBefore), r.tick)

/-! ## `internal/repository/redis_repository.go` -/

/-- The key of a quiz in the cache: `fmt.Sprintf("quiz:%s", quizID)`. -/
def quizKey (quizID : String) : String := "quiz:" ++ quizID

/-- The key of a leaderboard in the cache: `fmt.Sprintf("leaderboard:%s", quizID)`. -/
def leaderboardKey (quizID : String) : String := "leaderboard:" ++ quizID

/-- The member written for a participant: `fmt.Sprintf("%s:%s", p.UserID, p.Username)`. -/
def memberOf (uuid : UuidLib) (p : Participant) : String :=
  uuid.ToString p.UserID ++ ":" ++ p.Username

/-- The loop of `UpdateLeaderboard`: one `ZADD` per participant with the score
`float64(p.Score)`, errors ignored. -/
def redisRepository.addAll (uuid : UuidLib) (key : String) : List Participant → Redis → Redis
  | [], r => r
  | p :: rest, r =>
    redisRepository.addAll uuid key rest
      (r.ZAdd key (float64OfInt p.Score) (memberOf uuid p)).2

/-- The method `redisRepository.UpdateLeaderboard`: delete the key, add every
participant, set the expiry; it always returns `nil`. -/
def redisRepository.UpdateLeaderboard (uuid : UuidLib) (quizID : String)
    (participants : List Participant) (r : Redis) : Option Err × Redis :=
  let key := leaderboardKey quizID
  let r1 := (r.Del key).2
  let r2 := redisRepository.addAll uuid key participants r1
  let r3 := (r2.Expire key).2
  (none, r3)

/-- The loop of `redisRepository.GetLeaderboard` from index `i` on, `acc` being
the slice built so far: a member that does not split into two parts at `:` is
skipped, the others are appended with the score `int(result.Score)` and the
rank `i + 1`. -/
def redisRepository.decode (uuid : UuidLib) :
    Nat → List (String × Int) → List LeaderboardEntry → List LeaderboardEntry
  | _, [], acc => acc
  | i, result :: rest, acc =>
    let parts := strings.Split result.1 ':'
    if parts.length ≠ 2 then redisRepository.decode uuid (i + 1) rest acc
    else
      redisRepository.decode uuid (i + 1) rest
        (acc ++ [{ UserID := (uuid.Parse (parts.getD 0 "")).1
                   Username := parts.getD 1 ""
                   Score := intOfFloat64 result.2
                   Rank := (i : Int) + 1 }])

/-- The method `redisRepository.GetLeaderboard`. -/
def redisRepository.GetLeaderboard (uuid : UuidLib) (quizID : String) (r : Redis) :
    Except Err (List LeaderboardEntry) × Redis :=
  let key := leaderboardKey quizID
  match r.ZRevRangeWithScores key with
  | (.error err, r1) => (.error err, r1)
  | (.ok results, r1) => (.ok (redisRepository.decode uuid 0 results []), r1)

/-- The method `redisRepository.DeleteKey`. -/
def redisRepository.DeleteKey (key : String) (r : Redis) : Option Err × Redis :=
  r.Del key

/-- The method `redisRepository.SetQuizSession` (`json.Marshal` does not fail
on a quiz session). -/
def redisRepository.SetQuizSession (quizID : String) (session : QuizSession) (r : Redis) :
    Option Err × Redis :=
  r.Set (quizKey quizID) (CacheValue.quizJson session)

/-- The method `redisRepository.GetQuizSession`: `json.Unmarshal` succeeds on
the text of a quiz session and fails on any other text. -/
def redisRepository.GetQuizSession (quizID : String) (r : Redis) :
    Except Err QuizSession × Redis :=
  match r.Get (quizKey quizID) with
  | (.error err, r1) => (.error err, r1)
  | (.ok (CacheValue.quizJson session), r1) => (.ok session, r1)
  | (.ok (CacheValue.text _), r1) => (.error "json: cannot unmarshal", r1)

/-! ## Postgres -/

/-- The database as the program sees it: the four migrated tables.  A row of
`quiz_sessions` carries no questions (they live in `questions`).  `down n`
tells whether the `n`-th query fails; `calls` counts the queries made. -/
structure Db where
  users : List User
  quiz_sessions : List QuizSession
  questions : List Question
  user_answers : List UserAnswer
  calls : Nat
  down : Nat → Bool

/-- The database after one more query was made. -/
def Db.tick (db : Db) : Db := { db with calls := db.calls + 1 }

/-- Whether the query made now fails. -/
def Db.failing (db : Db) : Bool := db.down db.calls

/-- The rows of `user_answers ua JOIN questions q ON ua.question_id = q.id`. -/
def Db.answered (db : Db) : List (UserAnswer × Question) :=
  (db.user_answers.map (fun ua =>
    (db.questions.filter (fun q => decide (q.ID = ua.QuestionID))).map (fun q => (ua, q)))).flatten

/-- The term `CASE WHEN is_correct THEN q.points ELSE 0 END` of a joined row. -/
def earned (row : UserAnswer × Question) : Int :=
  if row.1.IsCorrect then row.2.Points else 0

/-- The aggregate `SUM(CASE WHEN is_correct THEN q.points ELSE 0 END)` over the
answers of one user to the questions of one quiz (`0` when there is none). -/
def Db.sumUserScore (db : Db) (userID quizID : UUID) : Int :=
  ((db.answered.filter
      (fun row => decide (row.1.UserID = userID ∧ row.2.QuizSessionID = quizID))).map earned).sum

/-! ## `internal/repository/quiz_repository.go` -/

/-- The method `quizRepository.GetQuiz`: the quiz with its questions preloaded. -/
def quizRepository.GetQuiz (id : UUID) (db : Db) : Except Err QuizSession × Db :=
  if db.failing then (.error "db: connection error", db.tick)
  else
    match db.quiz_sessions.find? (fun q => decide (q.ID = id)) with
    | none => (.error "record not found", db.tick)
    | some quiz =>
      (.ok { quiz with Questions := db.questions.filter (fun q => decide (q.QuizSessionID = id)) },
        db.tick)

/-- The method `quizRepository.SaveAnswer`: insert one row; the primary key must be new. -/
def quizRepository.SaveAnswer (answer : UserAnswer) (db : Db) : Option Err × Db :=
  if db.failing then (some "db: connection error", db.tick)
  else if db.user_answers.any (fun a => decide (a.ID = answer.ID)) then
    (some "duplicate key value violates unique constraint", db.tick)
  else (none, { db.tick with user_answers := db.user_answers ++ [answer] })

/-- The method `quizRepository.GetUserScore`. -/
def quizRepository.GetUserScore (userID quizID : UUID) (db : Db) : Except Err Int × Db :=
  if db.failing then (.error "db: connection error", db.tick)
  else (.ok (db.sumUserScore userID quizID), db.tick)

/-- The order of `ORDER BY score DESC`. -/
def scoreDesc (a b : Participant) : Prop := b.Score ≤ a.Score

instance : DecidableRel scoreDesc := fun a b => by
  unfold scoreDesc
  exact inferInstance

/-- The method `quizRepository.GetParticipants`: one row per user who answered a
question of the quiz, with the user's aggregate score, ordered by score
descending.  SQL leaves the order of equal scores open; the model keeps the
order of the `users` table among them. -/
def quizRepository.GetParticipants (quizID : UUID) (db : Db) :
    Except Err (List Participant) × Db :=
  if db.failing then (.error "db: connection error", db.tick)
  else
    let answerers :=
      (db.answered.filter (fun row => decide (row.2.QuizSessionID = quizID))).map
        (fun row => row.1.UserID)
    let rows := (db.users.filter (fun u => decide (u.ID ∈ answerers))).map (fun u =>
      ({ UserID := u.ID, QuizID := quizID, Username := u.Username,
         Score := db.sumUserScore u.ID quizID, JoinedAt := u.CreatedAt } : Participant))
    (.ok (rows.insertionSort scoreDesc), db.tick)

/-! ## The interfaces of the service -/

/-- The interface `repository.QuizRepository` (the methods the modelled code
calls), over a store with states `δ`. -/
structure QuizRepository (δ : Type) where
  GetQuiz : UUID → δ → Except Err QuizSession × δ
  SaveAnswer : UserAnswer → δ → Option Err × δ
  GetUserScore : UUID → UUID → δ → Except Err Int × δ
  GetParticipants : UUID → δ → Except Err (List Participant) × δ

/-- The interface `repository.RedisRepository` (the methods the modelled code
calls), over a cache with states `ρ`. -/
structure RedisRepository (ρ : Type) where
  SetQuizSession : String → QuizSession → ρ → Option Err × ρ
  GetQuizSession : String → ρ → Except Err QuizSession × ρ
  UpdateLeaderboard : String → List Participant → ρ → Option Err × ρ
  GetLeaderboard : String → ρ → Except Err (List LeaderboardEntry) × ρ
  DeleteKey : String → ρ → Option Err × ρ

/-- The interface `WebSocketService` as the quiz service uses it, over states
`ω`; a broadcast that panics yields `none`. -/
structure WebSocketService (ω : Type) where
  HasLeaderboardViewers : String → ω → Bool × ω
  BroadcastLeaderboardUpdate : String → List LeaderboardEntry → ω → Option ω

/-- Everything the quiz service talks to. -/
structure World (ρ δ ω : Type) where
  redis : ρ
  db : δ
  ws : ω

/-- The struct `quizService`, with the UUID library it is linked against. -/
structure quizService (ρ δ ω : Type) where
  quizRepo : QuizRepository δ
  redisRepo : RedisRepository ρ
  wsService : WebSocketService ω
  uuid : UuidLib

/-- A goroutine started by `SubmitAnswer`. -/
inductive Goroutine where
  | invalidate (quizID : String)
  | updateAndBroadcast (quizID : String)
  deriving DecidableEq, Repr

/-! ## `internal/service/quiz_service.go` -/

section Service

variable {ρ δ ω : Type}

/-- The loop of `GetLeaderboard` from index `i` on, `leaderboard` being the
slice built so far: one entry per participant, with rank `i + 1`. -/
def quizService.assemble :
    Nat → List Participant → List LeaderboardEntry → List LeaderboardEntry
  | _, [], leaderboard => leaderboard
  | i, p :: rest, leaderboard =>
    quizService.assemble (i + 1) rest
      (leaderboard ++ [{ UserID := p.UserID, Username := p.Username, Score := p.Score,
                         Rank := (i : Int) + 1 }])

/-- The second half of `GetLeaderboard` (after the cache was tried): read the
participants, build the snapshot, write it to the cache, return it. -/
def quizService.GetLeaderboard.fromStore (s : quizService ρ δ ω) (quizID : String)
    (quizUUID : UUID) (w : World ρ δ ω) : Except Err (List LeaderboardEntry) × World ρ δ ω :=
  match s.quizRepo.GetParticipants quizUUID w.db with
  | (.error err, d1) => (.error err, { w with db := d1 })
  | (.ok participants, d1) =>
    let leaderboard := quizService.assemble 0 participants []
    let r1 := (s.redisRepo.UpdateLeaderboard quizID participants w.redis).2
    (.ok leaderboard, { w with db := d1, redis := r1 })

/-- The method `quizService.GetLeaderboard`. -/
def quizService.GetLeaderboard (s : quizService ρ δ ω) (quizID : String) (w : World ρ δ ω) :
    Except Err (List LeaderboardEntry) × World ρ δ ω :=
  if (s.uuid.Parse quizID).2 = false then (.error "invalid UUID", w)
  else
    let quizUUID := (s.uuid.Parse quizID).1
    match s.redisRepo.GetLeaderboard quizID w.redis with
    | (.ok cachedLeaderboard, r1) =>
      if 0 < cachedLeaderboard.length then (.ok cachedLeaderboard, { w with redis := r1 })
      else quizService.GetLeaderboard.fromStore s quizID quizUUID { w with redis := r1 }
    | (.error _, r1) =>
      quizService.GetLeaderboard.fromStore s quizID quizUUID { w with redis := r1 }

/-- The method `quizService.GetQuiz`. -/
def quizService.GetQuiz (s : quizService ρ δ ω) (quizID : String) (w : World ρ δ ω) :
    Except Err QuizSession × World ρ δ ω :=
  if (s.uuid.Parse quizID).2 = false then (.error "invalid UUID", w)
  else
    let quizUUID := (s.uuid.Parse quizID).1
    match s.redisRepo.GetQuizSession quizID w.redis with
    | (.ok cachedQuiz, r1) => (.ok cachedQuiz, { w with redis := r1 })
    | (.error _, r1) =>
      match s.quizRepo.GetQuiz quizUUID w.db with
      | (.error err, d1) => (.error err, { w with redis := r1, db := d1 })
      | (.ok quiz, d1) =>
        let r2 := (s.redisRepo.SetQuizSession quizID quiz r1).2
        (.ok quiz, { w with redis := r2, db := d1 })

/-- The method `quizService.InvalidateLeaderboardCache`. -/
def quizService.InvalidateLeaderboardCache (s : quizService ρ δ ω) (quizID : String)
    (w : World ρ δ ω) : Option Err × World ρ δ ω :=
  let key := "leaderboard:" ++ quizID
  match s.redisRepo.DeleteKey key w.redis with
  | (some err, r1) => (some ("failed to invalidate leaderboard cache: " ++ err), { w with redis := r1 })
  | (none, r1) => (none, { w with redis := r1 })

/-- The method `quizService.updateAndBroadcastLeaderboard`; `none` when the
broadcast panics. -/
def quizService.updateAndBroadcastLeaderboard (s : quizService ρ δ ω) (quizID : String)
    (w : World ρ δ ω) : Option (World ρ δ ω) :=
  let (viewers, ws0) := s.wsService.HasLeaderboardViewers quizID w.ws
  if viewers = false then some { w with ws := ws0 }
  else
    match s.GetLeaderboard quizID { w with ws := ws0 } with
    | (.error _, w1) => some w1
    | (.ok leaderboard, w1) =>
      (s.wsService.BroadcastLeaderboardUpdate quizID leaderboard w1.ws).map
        (fun ws1 => { w1 with ws := ws1 })

/-- The method `quizService.SubmitAnswer`.  `newID` is the result of
`uuid.New()` and `now` of `time.Now()`; the goroutines the call starts are
returned, in the order they were started, and run later. -/
def quizService.SubmitAnswer (s : quizService ρ δ ω) (userID quizID : String)
    (req : SubmitAnswerRequest) (newID : UUID) (now : Time) (w : World ρ δ ω) :
    Except Err SubmitAnswerResponse × World ρ δ ω × List Goroutine :=
  let userUUID := (s.uuid.Parse userID).1
  let quizUUID := (s.uuid.Parse quizID).1
  let questionUUID := (s.uuid.Parse req.QuestionID).1
  match s.GetQuiz quizID w with
  | (.error err, w1) => (.error err, w1, [])
  | (.ok quiz, w1) =>
    match quiz.Questions.find? (fun q => decide (q.ID = questionUUID)) with
    | none => (.error "question not found", w1, [])
    | some question =>
      let isCorrect := decide (question.CorrectAnswer = req.Answer)
      let points : Int := if isCorrect then question.Points else 0
      let answer : UserAnswer :=
        { ID := newID, UserID := userUUID, QuestionID := questionUUID, Answer := req.Answer,
          IsCorrect := isCorrect, AnsweredAt := now }
      match s.quizRepo.SaveAnswer answer w1.db with
      | (some err, d2) => (.error err, { w1 with db := d2 }, [])
      | (none, d2) =>
        match s.quizRepo.GetUserScore userUUID quizUUID d2 with
        | (.error err, d3) => (.error err, { w1 with db := d3 }, [Goroutine.invalidate quizID])
        | (.ok newScore, d3) =>
          (.ok { Correct := isCorrect, NewScore := newScore, Points := points },
            { w1 with db := d3 },
            [Goroutine.invalidate quizID, Goroutine.updateAndBroadcast quizID])

end Service

/-! ## `internal/service/websocket_service.go` -/

/-- A message as sent to viewers (`[]byte` holding JSON text). -/
abbrev Payload := String

/-- A buffered Go channel of payloads: the items waiting in its buffer (oldest
first), its capacity, and whether it was closed. -/
structure Chan where
  buf : List Payload
  cap : Nat
  closed : Bool
  deriving DecidableEq, Repr

/-- The struct `Client` (without its connection). -/
structure Client where
  send : Chan
  quizID : String
  deriving DecidableEq, Repr

/-- The memory holding the clients: the client at each address (`*Client`). -/
abbrev Heap := Nat → Client

/-- The struct `Hub`: the keys of the map `clients` (addresses of clients, each
once, in any order) and the topic.  The three mailbox channels are unbuffered
and show as the events handed to `Hub.run`. -/
structure Hub where
  clients : List Nat
  quizID : String
  deriving DecidableEq, Repr

/-- What `Hub.run` receives from its mailboxes. -/
inductive HubEvent where
  | register (client : Nat)
  | unregister (client : Nat)
  | broadcast (message : Payload)
  deriving DecidableEq, Repr

/-- The statement `close(client.send)` on an open channel. -/
def closeSend (heap : Heap) (client : Nat) : Heap :=
  Function.update heap client
    { heap client with send := { (heap client).send with closed := true } }

/-- The statement `client.send <- message` when the buffer has room. -/
def pushSend (heap : Heap) (client : Nat) (message : Payload) : Heap :=
  Function.update heap client
    { heap client with send := { (heap client).send with buf := (heap client).send.buf ++ [message] } }

/-- The statement `delete(h.clients, client)`. -/
def Hub.delete (h : Hub) (client : Nat) : Hub :=
  { h with clients := h.clients.filter (fun c => decide (c ≠ client)) }

/-- The body of the broadcast loop for one client: a non-blocking send; when
the buffer is full the channel is closed and the client deleted.  Sending on a
closed channel panics (`none`). -/
def Hub.broadcastTo (message : Payload) (st : Hub × Heap) (client : Nat) : Option (Hub × Heap) :=
  if (st.2 client).send.closed then none
  else if (st.2 client).send.buf.length < (st.2 client).send.cap then
    some (st.1, pushSend st.2 client message)
  else some (st.1.delete client, closeSend st.2 client)

/-- The loop `for client := range h.clients` of the broadcast case, over the
keys the map held when the loop started. -/
def Hub.fanOut (message : Payload) : List Nat → Hub × Heap → Option (Hub × Heap)
  | [], st => some st
  | client :: rest, st =>
    match Hub.broadcastTo message st client with
    | none => none
    | some st1 => Hub.fanOut message rest st1

/-- One iteration of the loop of `Hub.run`: the `select` received `ev`.
Closing a closed channel panics (`none`). -/
def Hub.run (h : Hub) (heap : Heap) : HubEvent → Option (Hub × Heap)
  | .register client =>
    some ({ h with clients := if client ∈ h.clients then h.clients else h.clients ++ [client] },
      heap)
  | .unregister client =>
    if client ∈ h.clients then
      if (heap client).send.closed then none
      else some (h.delete client, closeSend heap client)
    else some (h, heap)
  | .broadcast message => Hub.fanOut message h.clients (h, heap)

/-- The struct `webSocketService` with the memory its hubs point into: the
registry `hubs`, the clients, and the first unused address. -/
structure webSocketService where
  hubs : String → Option Hub
  heap : Heap
  next : Nat

/-- The method `webSocketService.getOrCreateHub`. -/
def webSocketService.getOrCreateHub (s : webSocketService) (quizID : String) :
    Hub × webSocketService :=
  match s.hubs quizID with
  | some hub => (hub, s)
  | none =>
    let hub : Hub := { clients := [], quizID := quizID }
    (hub, { s with hubs := Function.update s.hubs quizID (some hub) })

/-- An event is received by the hub of a topic and handled by one iteration of
`Hub.run`; nothing happens when the topic has no hub. -/
def webSocketService.deliver (s : webSocketService) (quizID : String) (ev : HubEvent) :
    Option webSocketService :=
  match s.hubs quizID with
  | none => some s
  | some hub =>
    (hub.run s.heap ev).map
      (fun st => { s with hubs := Function.update s.hubs quizID (some st.1), heap := st.2 })

/-- The method `webSocketService.RegisterLeaderboardViewer`, up to the moment the
hub has handled the registration: a new client with an open channel of
capacity 256 is registered with the hub of the topic. -/
def webSocketService.RegisterLeaderboardViewer (s : webSocketService) (quizID : String) :
    Option webSocketService :=
  let s1 := (s.getOrCreateHub quizID).2
  let client : Client := { send := { buf := [], cap := 256, closed := false }, quizID := quizID }
  let s2 : webSocketService :=
    { s1 with heap := Function.update s1.heap s1.next client, next := s1.next + 1 }
  s2.deliver quizID (HubEvent.register s1.next)

/-- The method `webSocketService.HasLeaderboardViewers`, with the state it leaves. -/
def webSocketService.HasLeaderboardViewers (s : webSocketService) (quizID : String) :
    Bool × webSocketService :=
  match s.hubs quizID with
  | none => (false, s)
  | some hub => (decide (0 < hub.clients.length), s)

/-- The method `webSocketService.BroadcastLeaderboardUpdate`, up to the moment
the hub has handled the message; `marshal` is `json.Marshal`. -/
def webSocketService.BroadcastLeaderboardUpdate
    (marshal : LeaderboardUpdate → Except Err Payload) (s : webSocketService)
    (quizID : String) (leaderboard : List LeaderboardEntry) : Option webSocketService :=
  let update : LeaderboardUpdate :=
    { MsgType := "leaderboard_update", Leaderboard := leaderboard, UpdatedAt := 0 }
  match marshal update with
  | .error _ => some s
  | .ok message =>
    match s.hubs quizID with
    | none => some s
    | some _ => s.deliver quizID (HubEvent.broadcast message)

/-! ## The service wired to Redis and Postgres -/

/-- The constructor `NewRedisRepository`: the Redis implementation of the interface. -/
def NewRedisRepository (uuid : UuidLib) : RedisRepository Redis where
  SetQuizSession := redisRepository.SetQuizSession
  GetQuizSession := redisRepository.GetQuizSession
  UpdateLeaderboard := redisRepository.UpdateLeaderboard uuid
  GetLeaderboard := redisRepository.GetLeaderboard uuid
  DeleteKey := redisRepository.DeleteKey

/-- The constructor `NewQuizRepository`: the gorm implementation of the interface. -/
def NewQuizRepository : QuizRepository Db where
  GetQuiz := quizRepository.GetQuiz
  SaveAnswer := quizRepository.SaveAnswer
  GetUserScore := quizRepository.GetUserScore
  GetParticipants := quizRepository.GetParticipants

/-- The constructor `NewWebSocketService`: the hub implementation of the interface. -/
def NewWebSocketService (marshal : LeaderboardUpdate → Except Err Payload) :
    WebSocketService webSocketService where
  HasLeaderboardViewers := fun quizID s => s.HasLeaderboardViewers quizID
  BroadcastLeaderboardUpdate := fun quizID leaderboard s =>
    s.BroadcastLeaderboardUpdate marshal quizID leaderboard

/-- The constructor `NewQuizService`. -/
def NewQuizService {ρ δ ω : Type} (uuid : UuidLib) (quizRepo : QuizRepository δ)
    (redisRepo : RedisRepository ρ) (wsService : WebSocketService ω) : quizService ρ δ ω where
  quizRepo := quizRepo
  redisRepo := redisRepo
  wsService := wsService
  uuid := uuid

/-! ## Goroutines of `SubmitAnswer`, step by step -/

/-- Where a goroutine started by `SubmitAnswer` stands: what it does next.
The positions of `updateAndBroadcastLeaderboard` are the calls it makes, in
the order of the code (through `GetLeaderboard`). -/
inductive TaskState where
  /-- About to run `InvalidateLeaderboardCache`. -/
  | invalidating (quizID : String)
  /-- About to test `HasLeaderboardViewers`. -/
  | checkViewers (quizID : String)
  /-- In `GetLeaderboard`, about to read the cache. -/
  | readCache (quizID : String)
  /-- In `GetLeaderboard` after a cache miss, about to read the participants. -/
  | readStore (quizID : String)
  /-- In `GetLeaderboard`, about to write the rows read to the cache. -/
  | writeBack (quizID : String) (participants : List Participant)
  /-- About to broadcast the snapshot. -/
  | broadcast (quizID : String) (leaderboard : List LeaderboardEntry)
  deriving DecidableEq, Repr

/-- The first position of a goroutine. -/
def Goroutine.start : Goroutine → TaskState
  | .invalidate quizID => TaskState.invalidating quizID
  | .updateAndBroadcast quizID => TaskState.checkViewers quizID

section Steps

variable {ρ δ ω : Type}

/-- One step of a goroutine: the call it stands at is made on the current
world; the result is the next position (`none` when the goroutine returns) and
the new world, or `none` when the step panics. -/
def TaskState.step (s : quizService ρ δ ω) (w : World ρ δ ω) :
    TaskState → Option (Option TaskState × World ρ δ ω)
  | .invalidating quizID => some (none, (s.InvalidateLeaderboardCache quizID w).2)
  | .checkViewers quizID =>
    let (viewers, ws0) := s.wsService.HasLeaderboardViewers quizID w.ws
    if viewers = false then some (none, { w with ws := ws0 })
    else some (some (TaskState.readCache quizID), { w with ws := ws0 })
  | .readCache quizID =>
    if (s.uuid.Parse quizID).2 = false then some (none, w)
    else
      match s.redisRepo.GetLeaderboard quizID w.redis with
      | (.ok cachedLeaderboard, r1) =>
        if 0 < cachedLeaderboard.length then
          some (some (TaskState.broadcast quizID cachedLeaderboard), { w with redis := r1 })
        else some (some (TaskState.readStore quizID), { w with redis := r1 })
      | (.error _, r1) => some (some (TaskState.readStore quizID), { w with redis := r1 })
  | .readStore quizID =>
    match s.quizRepo.GetParticipants (s.uuid.Parse quizID).1 w.db with
    | (.error _, d1) => some (none, { w with db := d1 })
    | (.ok participants, d1) =>
      some (some (TaskState.writeBack quizID participants), { w with db := d1 })
  | .writeBack quizID participants =>
    some (some (TaskState.broadcast quizID (quizService.assemble 0 participants [])),
      { w with redis := (s.redisRepo.UpdateLeaderboard quizID participants w.redis).2 })
  | .broadcast quizID leaderboard =>
    (s.wsService.BroadcastLeaderboardUpdate quizID leaderboard w.ws).map
      (fun ws1 => (none, { w with ws := ws1 }))

/-- A goroutine run alone, for at most `fuel` steps, until it returns. -/
def TaskState.finish (s : quizService ρ δ ω) : Nat → TaskState → World ρ δ ω → Option (World ρ δ ω)
  | 0, _, _ => none
  | fuel + 1, t, w =>
    match t.step s w with
    | none => none
    | some (none, w1) => some w1
    | some (some t1, w1) => TaskState.finish s fuel t1 w1

/-- The service at work: the world and the goroutines that have a step left. -/
structure System (ρ δ ω : Type) where
  world : World ρ δ ω
  tasks : List TaskState

/-- What happens next in the system: a caller submits an answer, or the
goroutine at some index of the list makes its next step. -/
inductive Action where
  | submit (userID quizID : String) (req : SubmitAnswerRequest) (newID : UUID) (now : Time)
  | step (index : Nat)
  deriving DecidableEq, Repr

/-- One action.  `SubmitAnswer` runs up to its return and its goroutines join
the list; a goroutine that returns leaves the list.  `none` when the index
names no goroutine or the step panics. -/
def System.act (s : quizService ρ δ ω) (sys : System ρ δ ω) : Action → Option (System ρ δ ω)
  | .submit userID quizID req newID now =>
    let r := s.SubmitAnswer userID quizID req newID now sys.world
    some { world := r.2.1, tasks := sys.tasks ++ r.2.2.map Goroutine.start }
  | .step index =>
    match sys.tasks.get? index with
    | none => none
    | some t =>
      match t.step s sys.world with
      | none => none
      | some (none, w1) => some { world := w1, tasks := sys.tasks.eraseIdx index }
      | some (some t1, w1) => some { world := w1, tasks := sys.tasks.set index t1 }

/-- A sequence of actions. -/
def System.run (s : quizService ρ δ ω) : System ρ δ ω → List Action → Option (System ρ δ ω)
  | sys, [] => some sys
  | sys, a :: rest =>
    match sys.act s a with
    | none => none
    | some sys1 => System.run s sys1 rest

end Steps

/-- Every command sent to the server succeeds. -/
def Redis.Up (r : Redis) : Prop := ∀ n, r.down n = false

/-- Whether the ranks of a snapshot, read in order, are `1, 2, ..., N`. -/
def ranksContiguous (leaderboard : List LeaderboardEntry) : Prop :=
  leaderboard.map (fun e => e.Rank) = (List.range leaderboard.length).map (fun i => (i : Int) + 1)

instance (leaderboard : List LeaderboardEntry) : Decidable (ranksContiguous leaderboard) := by
  unfold ranksContiguous
  exact inferInstance

/-- The entry `GetLeaderboard` builds for the participant at index `i`. -/
def entryAt (i : Nat) (p : Participant) : LeaderboardEntry :=
  { UserID := p.UserID, Username := p.Username, Score := p.Score, Rank := (i : Int) + 1 }

/-! ## A small quiz, used to evaluate the code -/

namespace Demo

/-- The quiz id `00000000-0000-0000-0000-000000000010` as the caller writes it. -/
def quizID : String := "00000000-0000-0000-0000-000000000010"

/-- The quiz: two questions worth 10 points each. -/
def quiz : QuizSession :=
  { ID := 16, Title := "T", Status := "waiting", Questions := [], CreatedAt := 0, ExpiresAt := 24 }

def q1 : Question :=
  { ID := 17, QuizSessionID := 16, QuestionText := "Q1", Options := ["A", "B"],
    CorrectAnswer := "A", Points := 10, Order := 1 }

def q2 : Question :=
  { ID := 18, QuizSessionID := 16, QuestionText := "Q2", Options := ["A", "B"],
    CorrectAnswer := "B", Points := 10, Order := 2 }

/-- The id of `q1` as text. -/
def q1ID : String := "00000000-0000-0000-0000-000000000011"

/-- The id of `q2` as text. -/
def q2ID : String := "00000000-0000-0000-0000-000000000012"

/-- The id of the first user as text. -/
def user1ID : String := "00000000-0000-0000-0000-000000000001"

/-- An answer row. -/
def answer (id user question : UUID) (text : String) (correct : Bool) : UserAnswer :=
  { ID := id, UserID := user, QuestionID := question, Answer := text, IsCorrect := correct,
    AnsweredAt := 1 }

/-- A database holding the quiz, the given users and the given answers, with
every query succeeding. -/
def db (users : List User) (answers : List UserAnswer) : Db :=
  { users := users, quiz_sessions := [quiz], questions := [q1, q2], user_answers := answers,
    calls := 0, down := fun _ => false }

/-- An empty Redis server on which every command succeeds. -/
def redisUp : Redis := { strs := [], zsets := [], calls := 0, down := fun _ => false }

/-- An empty Redis server on which every command fails. -/
def redisDown : Redis := { strs := [], zsets := [], calls := 0, down := fun _ => true }

/-- A websocket service without any hub. -/
def noHubs : webSocketService :=
  { hubs := fun _ => none
    heap := fun _ => { send := { buf := [], cap := 256, closed := false }, quizID := "" }
    next := 0 }

/-- A hub with two viewers. -/
def hub : Hub := { clients := [0, 1], quizID := "a" }

/-- A memory in which client 1 has 256 unread messages in its buffer and every
other client none; all channels are open and have capacity 256. -/
def heap : Heap := fun c =>
  if c = 1 then { send := { buf := List.replicate 256 "m", cap := 256, closed := false }, quizID := "a" }
  else { send := { buf := [], cap := 256, closed := false }, quizID := "a" }

/-- A registry with the hub of topic `a` (clients 0 and 1) and the hub of topic
`b` (client 2). -/
def registry : webSocketService :=
  { hubs := fun topic =>
      if topic = "a" then some hub
      else if topic = "b" then some { clients := [2], quizID := "b" }
      else none
    heap := heap
    next := 3 }

/-- The encoder of viewer messages used in the examples: the payload names the
number of entries (the program never reads a payload back). -/
def marshal (update : LeaderboardUpdate) : Except Err Payload :=
  .ok (String.mk (List.replicate update.Leaderboard.length '*'))

/-- The quiz service wired to Redis, Postgres and the hubs. -/
def service : quizService Redis Db webSocketService :=
  NewQuizService googleUuid NewQuizRepository (NewRedisRepository googleUuid)
    (NewWebSocketService marshal)

/-- Alice (20 points) and Bob (10 points). -/
def dbAliceBob : Db :=
  db [{ ID := 1, Username := "alice", CreatedAt := 0 }, { ID := 2, Username := "bob", CreatedAt := 0 }]
    [answer 101 1 17 "A" true, answer 102 1 18 "B" true, answer 103 2 17 "A" true,
     answer 104 2 18 "A" false]

/-- The rows the store returns for `dbAliceBob`. -/
def rowsAliceBob : List Participant :=
  [{ UserID := 1, QuizID := 16, Username := "alice", Score := 20, JoinedAt := 0 },
   { UserID := 2, QuizID := 16, Username := "bob", Score := 10, JoinedAt := 0 }]

/-- The same answers, the first user being called `a:b`. -/
def dbColon : Db :=
  db [{ ID := 1, Username := "a:b", CreatedAt := 0 }, { ID := 2, Username := "bob", CreatedAt := 0 }]
    [answer 101 1 17 "A" true, answer 102 1 18 "B" true, answer 103 2 17 "A" true,
     answer 104 2 18 "A" false]

/-- Alice and Bob with 10 points each. -/
def dbTie : Db :=
  db [{ ID := 1, Username := "alice", CreatedAt := 0 }, { ID := 2, Username := "bob", CreatedAt := 0 }]
    [answer 101 1 17 "A" true, answer 102 1 18 "A" false, answer 103 2 17 "B" false,
     answer 104 2 18 "B" true]

/-- The database `d` with every query failing from now on. -/
def broken (d : Db) : Db := { d with down := fun _ => true }

/-- A websocket service with one viewer (client 0) on the topic of the quiz. -/
def oneViewer : webSocketService :=
  { hubs := fun topic => if topic = quizID then some { clients := [0], quizID := quizID } else none
    heap := fun _ => { send := { buf := [], cap := 256, closed := false }, quizID := quizID }
    next := 1 }

/-- Alice has joined, nobody has answered, the cache is empty and working, one
viewer watches the leaderboard, no goroutine runs. -/
def quiet : System Redis Db webSocketService :=
  { world := { redis := redisUp, db := db [{ ID := 1, Username := "alice", CreatedAt := 0 }] [],
               ws := oneViewer }
    tasks := [] }

/-- Two submissions of Alice (both correct) and one order in which their
goroutines may run: the recompute of the first submission reads the store
before the second answer is saved and writes the cache after the goroutines of
the second submission have finished. -/
def staleSchedule : List Action :=
  [ Action.submit user1ID quizID { QuestionID := q1ID, Answer := "A" } 201 1,
    Action.step 0,   -- first invalidation: delete the key
    Action.step 0,   -- first recompute: viewers present
    Action.step 0,   -- first recompute: cache miss
    Action.step 0,   -- first recompute: reads the rows (alice, 10)
    Action.submit user1ID quizID { QuestionID := q2ID, Answer := "B" } 202 2,
    Action.step 1,   -- second invalidation: delete the key
    Action.step 1,   -- second recompute: viewers present
    Action.step 1,   -- second recompute: cache miss
    Action.step 1,   -- second recompute: reads the rows (alice, 20)
    Action.step 1,   -- second recompute: writes (alice, 20) to the cache
    Action.step 1,   -- second recompute: broadcast
    Action.step 0,   -- first recompute: writes (alice, 10) to the cache
    Action.step 0 ]  -- first recompute: broadcast

/-- The world of a database, an empty working cache and no hub. -/
def world (d : Db) : World Redis Db webSocketService := { redis := redisUp, db := d, ws := noHubs }

end Demo

/-! ## `internal/handler/quiz_handler.go` -/

/-- What a handler writes with `c.JSON`: a quiz, or `gin.H{"error": ...}`. -/
inductive ResponseBody where
  | quiz (session : QuizSession)
  | error (message : String)
  deriving DecidableEq, Repr

/-- An HTTP response: status code and JSON body. -/
structure Response where
  status : Nat
  body : ResponseBody
  deriving DecidableEq, Repr

/-- The loop `for i := range quiz.Questions { quiz.Questions[i].CorrectAnswer = "" }`. -/
def redact (quiz : QuizSession) : QuizSession :=
  { quiz with Questions := quiz.Questions.map (fun q => { q with CorrectAnswer := "" }) }

/-- The method `QuizHandler.GetQuiz`, `quizID` being the path parameter. -/
def QuizHandler.GetQuiz {ρ δ ω : Type} (quizService : quizService ρ δ ω) (quizID : String)
    (w : World ρ δ ω) : Response × World ρ δ ω :=
  match quizService.GetQuiz quizID w with
  | (.error _, w1) => ({ status := 404, body := ResponseBody.error "Quiz not found" }, w1)
  | (.ok quiz, w1) => ({ status := 200, body := ResponseBody.quiz (redact quiz) }, w1)

/-! ## Runs of a hub -/

/-- The loop of `Hub.run` over the events it receives, in order; `none` when an
iteration panics. -/
def Hub.runAll : Hub × Heap → List HubEvent → Option (Hub × Heap)
  | st, [] => some st
  | st, ev :: rest =>
    match st.1.run st.2 ev with
    | none => none
    | some st1 => Hub.runAll st1 rest

/-- The clients registered by a list of events, in order. -/
def registrations : List HubEvent → List Nat
  | [] => []
  | .register client :: rest => client :: registrations rest
  | .unregister _ :: rest => registrations rest
  | .broadcast _ :: rest => registrations rest


/-! ## More examples -/

namespace Demo

/-- A quiz whose id is written with letters: `00000000-0000-0000-0000-0000000000ab`. -/
def quizHex : QuizSession :=
  { ID := 171, Title := "H", Status := "waiting", Questions := [], CreatedAt := 0, ExpiresAt := 24 }

/-- The id of `quizHex` in lower case. -/
def hexLower : String := "00000000-0000-0000-0000-0000000000ab"

/-- The id of `quizHex` in upper case. -/
def hexUpper : String := "00000000-0000-0000-0000-0000000000AB"

/-- The question of `quizHex`. -/
def qHex : Question :=
  { ID := 172, QuizSessionID := 171, QuestionText := "Q", Options := ["A", "B"],
    CorrectAnswer := "A", Points := 10, Order := 1 }

/-- A database holding `quizHex`, Alice, and her correct answer (10 points). -/
def dbHex : Db :=
  { users := [{ ID := 1, Username := "alice", CreatedAt := 0 }], quiz_sessions := [quizHex],
    questions := [qHex], user_answers := [answer 101 1 172 "A" true],
    calls := 0, down := fun _ => false }

/-- The quiz `quiz` as the store returns it, with its questions. -/
def quizStored : QuizSession := { quiz with Questions := [q1, q2] }

/-- A question of the quiz `quiz` worth `2^53 + 1` points (the points of a
question are whatever the request that created the quiz says). -/
def qBig : Question :=
  { ID := 19, QuizSessionID := 16, QuestionText := "Q3", Options := ["A", "B"],
    CorrectAnswer := "A", Points := 9007199254740993, Order := 1 }

/-- A database in which Alice has answered `qBig` correctly. -/
def dbBig : Db :=
  { users := [{ ID := 1, Username := "alice", CreatedAt := 0 }], quiz_sessions := [quiz],
    questions := [qBig], user_answers := [answer 101 1 19 "A" true],
    calls := 0, down := fun _ => false }

/-- The participant `a:b` with 20 points. -/
def colonRow : Participant :=
  { UserID := 1, QuizID := 16, Username := "a:b", Score := 20, JoinedAt := 0 }

/-- Events of a hub: clients 1 and 0 register, a broadcast, both unregister
(client 1 twice). -/
def events : List HubEvent :=
  [HubEvent.register 1, HubEvent.register 0, HubEvent.broadcast "x", HubEvent.unregister 1,
   HubEvent.unregister 0, HubEvent.unregister 1]

end Demo

/-! # Theorems -/


/-! ## The snapshot assembled from the store -/

theorem assemble_eq (l : List Participant) : ∀ (i : Nat) (acc : List LeaderboardEntry),
    quizService.assemble i l acc = acc ++ (l.enumFrom i).map (fun ip => entryAt ip.1 ip.2) := by
  induction l with
  | nil => intro i acc; simp [quizService.assemble]
  | cons p rest ih =>
    intro i acc
    simp [quizService.assemble, ih, entryAt, List.enumFrom_cons]

theorem assemble_getElem? (l : List Participant) (i : Nat) :
    (quizService.assemble 0 l [])[i]? = l[i]?.map (entryAt i) := by
  rw [assemble_eq]
  simp [List.getElem?_enumFrom]
  cases l[i]? <;> simp

theorem assemble_length (l : List Participant) :
    (quizService.assemble 0 l []).length = l.length := by
  rw [assemble_eq]
  simp

theorem assemble_scores (l : List Participant) :
    (quizService.assemble 0 l []).map (fun e => e.Score) = l.map (fun p => p.Score) := by
  apply List.ext_getElem?
  intro i
  simp only [List.getElem?_map, assemble_getElem?]
  cases l[i]? <;> simp [entryAt]

section Service

variable {ρ δ ω : Type}

theorem fromStore_ok (s : quizService ρ δ ω) (quizID : String) (quizUUID : UUID)
    (w : World ρ δ ω) (participants : List Participant) (d1 : δ)
    (hstore : s.quizRepo.GetParticipants quizUUID w.db = (.ok participants, d1)) :
    (quizService.GetLeaderboard.fromStore s quizID quizUUID w).1
      = .ok (quizService.assemble 0 participants []) := by
  simp [quizService.GetLeaderboard.fromStore, hstore]

theorem fromStore_error (s : quizService ρ δ ω) (quizID : String) (quizUUID : UUID)
    (w : World ρ δ ω) (err : Err) (d1 : δ)
    (hstore : s.quizRepo.GetParticipants quizUUID w.db = (.error err, d1)) :
    (quizService.GetLeaderboard.fromStore s quizID quizUUID w).1 = .error err := by
  simp [quizService.GetLeaderboard.fromStore, hstore]

/-- On a cache miss (the cache read fails or yields no entry) `GetLeaderboard`
is its second half, run on the state the cache read left. -/
theorem GetLeaderboard_miss (s : quizService ρ δ ω) (quizID : String) (w : World ρ δ ω)
    (hvalid : (s.uuid.Parse quizID).2 = true)
    (hmiss : ∀ cached, (s.redisRepo.GetLeaderboard quizID w.redis).1 = .ok cached →
      cached.length = 0) :
    s.GetLeaderboard quizID w
      = quizService.GetLeaderboard.fromStore s quizID (s.uuid.Parse quizID).1
          { w with redis := (s.redisRepo.GetLeaderboard quizID w.redis).2 } := by
  unfold quizService.GetLeaderboard
  simp only [hvalid, Bool.true_eq_false, if_false]
  rcases hc : s.redisRepo.GetLeaderboard quizID w.redis with ⟨res, r1⟩
  cases res with
  | error e => simp
  | ok cached =>
    have h0 := hmiss cached (by rw [hc])
    simp [h0]

/-- On a cache hit (the cache read yields at least one entry) `GetLeaderboard`
returns what the cache read returned and leaves the store alone. -/
theorem GetLeaderboard_hit (s : quizService ρ δ ω) (quizID : String) (w : World ρ δ ω)
    (cached : List LeaderboardEntry)
    (hvalid : (s.uuid.Parse quizID).2 = true)
    (hhit : (s.redisRepo.GetLeaderboard quizID w.redis).1 = .ok cached)
    (hlen : 0 < cached.length) :
    s.GetLeaderboard quizID w
      = (.ok cached, { w with redis := (s.redisRepo.GetLeaderboard quizID w.redis).2 }) := by
  unfold quizService.GetLeaderboard
  simp only [hvalid, Bool.true_eq_false, if_false]
  rcases hc : s.redisRepo.GetLeaderboard quizID w.redis with ⟨res, r1⟩
  rw [hc] at hhit
  simp only at hhit
  subst hhit
  simp [hlen]

end Service

/-! ## Strings and members -/

theorem splitOn_of_not_mem (sep : Char) (l : List Char) (h : sep ∉ l) : splitOn sep l = [l] := by
  induction l with
  | nil => rfl
  | cons c cs ih =>
    have hc : c ≠ sep := fun e => h (by simp [e])
    have hcs : sep ∉ cs := fun e => h (by simp [e])
    simp [splitOn, hc, ih hcs]

theorem splitOn_append_sep (sep : Char) (a b : List Char) (h : sep ∉ a) :
    splitOn sep (a ++ sep :: b) = a :: splitOn sep b := by
  induction a with
  | nil => simp [splitOn]
  | cons c cs ih =>
    have hc : c ≠ sep := fun e => h (by simp [e])
    have hcs : sep ∉ cs := fun e => h (by simp [e])
    simp [splitOn, hc, ih hcs]

theorem memberOf_data (uuid : UuidLib) (p : Participant) :
    (memberOf uuid p).data = (uuid.ToString p.UserID).data ++ ':' :: p.Username.data := by
  simp [memberOf, String.data_append]

/-- A member whose two halves hold no `:` splits into exactly these halves. -/
theorem Split_memberOf (uuid : UuidLib) (p : Participant)
    (hid : ':' ∉ (uuid.ToString p.UserID).data) (hname : ':' ∉ p.Username.data) :
    strings.Split (memberOf uuid p) ':' = [uuid.ToString p.UserID, p.Username] := by
  simp [strings.Split, memberOf_data, splitOn_append_sep _ _ _ hid, splitOn_of_not_mem _ _ hname]

theorem memberOf_injective (uuid : UuidLib) (p q : Participant)
    (hp : ':' ∉ (uuid.ToString p.UserID).data) (hq : ':' ∉ (uuid.ToString q.UserID).data)
    (h : memberOf uuid p = memberOf uuid q) : uuid.ToString p.UserID = uuid.ToString q.UserID := by
  have h1 : splitOn ':' (memberOf uuid p).data = splitOn ':' (memberOf uuid q).data := by rw [h]
  rw [memberOf_data, memberOf_data, splitOn_append_sep _ _ _ hp, splitOn_append_sep _ _ _ hq] at h1
  have h2 := (List.cons.inj h1).1
  exact String.ext h2

/-! ## Scores that `float64` keeps -/

/-- An integer of magnitude below `2^53` converts to `float64` exactly. -/
theorem float64OfInt_of_small (n : Int) (h : n.natAbs < 2 ^ 53) : float64OfInt n = n := by
  have hd : float64Drop 64 n.natAbs = 0 := by
    unfold float64Drop
    rw [if_pos h]
  simp only [float64OfInt, hd, pow_zero, Nat.mod_one, Nat.div_one, Nat.mul_zero, Nat.mul_one,
    Nat.lt_one_iff, if_true]
  by_cases hn : n < 0
  · rw [if_pos hn]
    omega
  · rw [if_neg hn]
    omega

/-- An integer of magnitude below `2^63` converts from `float64` to `int` as it is. -/
theorem intOfFloat64_of_small (n : Int) (h : n.natAbs < 2 ^ 63) : intOfFloat64 n = n := by
  have h2 : -(2 ^ 63) ≤ n ∧ n < 2 ^ 63 := by
    constructor <;> omega
  unfold intOfFloat64
  rw [if_pos h2]

/-! ## The decoding loop of the cache read -/

/-- On members written for participants whose id text and display name hold no
`:`, whose id text parses back and whose score converts to `int` as it is,
the decoding loop of the cache read builds what the assembling loop of the
service builds. -/
theorem decode_eq_assemble (uuid : UuidLib) (rows : List Participant) :
    ∀ (i : Nat) (acc : List LeaderboardEntry),
    (∀ p ∈ rows, ':' ∉ p.Username.data) →
    (∀ p ∈ rows, uuid.Parse (uuid.ToString p.UserID) = (p.UserID, true) ∧
      ':' ∉ (uuid.ToString p.UserID).data) →
    (∀ p ∈ rows, intOfFloat64 p.Score = p.Score) →
    redisRepository.decode uuid i (rows.map (fun p => (memberOf uuid p, p.Score))) acc
      = quizService.assemble i rows acc := by
  induction rows with
  | nil => intro i acc _ _ _; rfl
  | cons p rest ih =>
    intro i acc hname hid hscore
    have hp := hid p (by simp)
    have hn := hname p (by simp)
    have hs := hscore p (by simp)
    have hsplit := Split_memberOf uuid p hp.2 hn
    simp only [List.map_cons, redisRepository.decode, quizService.assemble, hsplit]
    simp only [List.length_cons, List.length_nil, ne_eq, not_true_eq_false, if_false]
    simp only [List.getD_cons_zero, List.getD_cons_succ, hp.1, hs]
    exact ih (i + 1) _ (fun q hq => hname q (by simp [hq])) (fun q hq => hid q (by simp [hq]))
      (fun q hq => hscore q (by simp [hq]))

/-! ## Redis commands on a working server -/

theorem kvGet_kvDel_self {β : Type} (k : String) (l : List (String × β)) :
    kvGet k (kvDel k l) = none := by
  induction l with
  | nil => rfl
  | cons kv rest ih =>
    by_cases h : kv.1 = k
    · simpa [kvDel, h] using ih
    · simpa [kvDel, h, kvGet] using ih

theorem kvGet_kvSet_self {β : Type} (k : String) (v : β) (l : List (String × β)) :
    kvGet k (kvSet k v l) = some v := by
  simp [kvSet, kvGet]

theorem Redis.Up.failing {r : Redis} (h : r.Up) : r.failing = false := h r.calls

theorem Redis.Up.Del {r : Redis} (h : r.Up) (key : String) :
    (r.Del key).2.Up ∧ kvGet key (r.Del key).2.zsets = none := by
  simp only [Redis.Del, h.failing]
  exact ⟨h, kvGet_kvDel_self key r.zsets⟩

theorem Redis.Up.ZAdd {r : Redis} (h : r.Up) (key : String) (score : Int) (member : String) :
    (r.ZAdd key score member).2.Up ∧
      kvGet key (r.ZAdd key score member).2.zsets
        = some (zadd member score ((kvGet key r.zsets).getD [])) := by
  simp only [Redis.ZAdd, h.failing]
  exact ⟨h, kvGet_kvSet_self _ _ _⟩

theorem Redis.Up.Expire {r : Redis} (h : r.Up) (key : String) :
    (r.Expire key).2.Up ∧ (r.Expire key).2.zsets = r.zsets := by
  simp only [Redis.Expire, h.failing]
  exact ⟨h, rfl⟩

theorem Redis.Up.ZRevRangeWithScores {r : Redis} (h : r.Up) (key : String) :
    (r.ZRevRangeWithScores key).1
      = .ok (((kvGet key r.zsets).getD []).insertionSort zrevBefore) ∧
    (r.ZRevRangeWithScores key).2.Up ∧ (r.ZRevRangeWithScores key).2.zsets = r.zsets := by
  simp only [Redis.ZRevRangeWithScores, h.failing]
  exact ⟨rfl, h, rfl⟩

/-- Adding a member the set does not hold appends it. -/
theorem zadd_new (member : String) (score : Int) (z : ZSet) (h : member ∉ z.map Prod.fst) :
    zadd member score z = z ++ [(member, score)] := by
  have : z.any (fun e => decide (e.1 = member)) = false := by
    rw [List.any_eq_false]
    intro e he
    simp only [decide_eq_true_eq]
    intro heq
    exact h (by simpa [heq] using List.mem_map_of_mem Prod.fst he)
  simp [zadd, this]

/-- The sorted set after the loop of `UpdateLeaderboard` on a working server. -/
theorem addAll_up (uuid : UuidLib) (key : String) (rows : List Participant) :
    ∀ (r : Redis), r.Up →
    (rows.map (memberOf uuid)).Nodup →
    (∀ p ∈ rows, memberOf uuid p ∉ ((kvGet key r.zsets).getD []).map Prod.fst) →
    (redisRepository.addAll uuid key rows r).Up ∧
      (kvGet key (redisRepository.addAll uuid key rows r).zsets).getD []
        = (kvGet key r.zsets).getD []
          ++ rows.map (fun p => (memberOf uuid p, float64OfInt p.Score)) := by
  induction rows with
  | nil => intro r h _ _; exact ⟨h, by simp [redisRepository.addAll]⟩
  | cons p rest ih =>
    intro r h hnd hnew
    have hz := h.ZAdd key (float64OfInt p.Score) (memberOf uuid p)
    have hnd2 := List.nodup_cons.mp hnd
    have hnewp := hnew p (by simp)
    have hrest : ∀ q ∈ rest, memberOf uuid q ∉
        ((kvGet key (r.ZAdd key (float64OfInt p.Score)
          (memberOf uuid p)).2.zsets).getD []).map Prod.fst := by
      intro q hq
      rw [hz.2, Option.getD_some, zadd_new _ _ _ hnewp]
      simp only [List.map_append, List.map_cons, List.map_nil, List.mem_append,
        List.mem_singleton, not_or]
      refine ⟨hnew q (by simp [hq]), ?_⟩
      intro heq
      exact hnd2.1 (by rw [← heq]; exact List.mem_map_of_mem _ hq)
    have := ih _ hz.1 hnd2.2 hrest
    refine ⟨this.1, ?_⟩
    simp only [redisRepository.addAll]
    rw [this.2, hz.2, Option.getD_some, zadd_new _ _ _ hnewp]
    simp

/-- On a working server `UpdateLeaderboard` leaves under the key exactly one
element per participant, in the order of the rows, when the members are
pairwise different. -/
theorem UpdateLeaderboard_up (uuid : UuidLib) (quizID : String) (rows : List Participant)
    (r : Redis) (h : r.Up) (hnd : (rows.map (memberOf uuid)).Nodup) :
    (redisRepository.UpdateLeaderboard uuid quizID rows r).2.Up ∧
      (kvGet (leaderboardKey quizID)
          (redisRepository.UpdateLeaderboard uuid quizID rows r).2.zsets).getD []
        = rows.map (fun p => (memberOf uuid p, float64OfInt p.Score)) := by
  have hd := h.Del (leaderboardKey quizID)
  have ha := addAll_up uuid (leaderboardKey quizID) rows _ hd.1 hnd
    (by intro p _; simp [hd.2])
  have he := ha.1.Expire (leaderboardKey quizID)
  simp only [redisRepository.UpdateLeaderboard]
  refine ⟨he.1, ?_⟩
  rw [he.2, ha.2, hd.2]
  simp

/-! ## The orders of the store and of the cache -/

theorem memcmpLe_total : ∀ (a b : List Char), memcmpLe a b = true ∨ memcmpLe b a = true
  | [], _ => Or.inl rfl
  | _ :: _, [] => Or.inr rfl
  | x :: xs, y :: ys => by
    simp only [memcmpLe]
    by_cases h1 : x.toNat < y.toNat
    · simp [h1]
    · by_cases h2 : y.toNat < x.toNat
      · simp [h2]
      · simp only [h1, h2, if_false]
        exact memcmpLe_total xs ys

theorem memcmpLe_trans : ∀ (a b c : List Char),
    memcmpLe a b = true → memcmpLe b c = true → memcmpLe a c = true
  | [], _, _ => fun _ _ => rfl
  | _ :: _, [], _ => fun h _ => by simp [memcmpLe] at h
  | _ :: _, _ :: _, [] => fun _ h => by simp [memcmpLe] at h
  | x :: xs, y :: ys, z :: zs => by
    intro hab hbc
    simp only [memcmpLe] at hab hbc ⊢
    by_cases h1 : x.toNat < y.toNat
    · by_cases h2 : y.toNat < z.toNat
      · have : x.toNat < z.toNat := by omega
        simp [this]
      · by_cases h3 : z.toNat < y.toNat
        · simp [h2, h3] at hbc
        · have : x.toNat < z.toNat := by omega
          simp [this]
    · by_cases h1b : y.toNat < x.toNat
      · simp [h1, h1b] at hab
      · simp only [h1, h1b, if_false] at hab
        by_cases h2 : y.toNat < z.toNat
        · have : x.toNat < z.toNat := by omega
          simp [this]
        · by_cases h3 : z.toNat < y.toNat
          · simp [h2, h3] at hbc
          · simp only [h2, h3, if_false] at hbc
            have e1 : ¬ x.toNat < z.toNat := by omega
            have e2 : ¬ z.toNat < x.toNat := by omega
            simp only [e1, e2, if_false]
            exact memcmpLe_trans xs ys zs hab hbc

instance : IsTotal (String × Int) zrevBefore where
  total a b := by
    unfold zrevBefore
    rcases lt_trichotomy a.2 b.2 with h | h | h
    · exact Or.inr (Or.inl h)
    · rcases memcmpLe_total a.1.data b.1.data with h1 | h1
      · exact Or.inr (Or.inr ⟨h, h1⟩)
      · exact Or.inl (Or.inr ⟨h.symm, h1⟩)
    · exact Or.inl (Or.inl h)

instance : IsTrans (String × Int) zrevBefore where
  trans a b c := by
    unfold zrevBefore
    rintro (h1 | ⟨h1, m1⟩) (h2 | ⟨h2, m2⟩)
    · exact Or.inl (by omega)
    · exact Or.inl (by omega)
    · exact Or.inl (by omega)
    · exact Or.inr ⟨by omega, memcmpLe_trans _ _ _ m2 m1⟩

instance : IsTotal Participant scoreDesc where
  total a b := by
    unfold scoreDesc
    exact le_total b.Score a.Score

instance : IsTrans Participant scoreDesc where
  trans a b c := by
    unfold scoreDesc
    intro h1 h2
    exact le_trans h2 h1

/-- What `ZREVRANGE` returns is in descending order of score, equal scores in
descending order of member. -/
theorem ZRevRangeWithScores_sorted (r : Redis) (key : String) (results : List (String × Int))
    (h : (r.ZRevRangeWithScores key).1 = .ok results) : results.Sorted zrevBefore := by
  unfold Redis.ZRevRangeWithScores at h
  by_cases hf : r.failing = true
  · simp [hf] at h
  · simp only [hf, if_false] at h
    cases h
    exact List.sorted_insertionSort zrevBefore _

/-- The rows `GetParticipants` returns are in descending order of score. -/
theorem GetParticipants_sorted (quizID : UUID) (db : Db) (rows : List Participant)
    (h : (quizRepository.GetParticipants quizID db).1 = .ok rows) :
    rows.Pairwise (fun a b => b.Score ≤ a.Score) := by
  unfold quizRepository.GetParticipants at h
  by_cases hf : db.failing = true
  · simp [hf] at h
  · simp only [hf, if_false] at h
    cases h
    exact List.sorted_insertionSort scoreDesc _

theorem redisGetLeaderboard_up (uuid : UuidLib) (quizID : String) (r : Redis) (h : r.Up) :
    (redisRepository.GetLeaderboard uuid quizID r).1
      = .ok (redisRepository.decode uuid 0
          (((kvGet (leaderboardKey quizID) r.zsets).getD []).insertionSort zrevBefore) []) ∧
    (redisRepository.GetLeaderboard uuid quizID r).2.Up ∧
    (redisRepository.GetLeaderboard uuid quizID r).2.zsets = r.zsets := by
  simp only [redisRepository.GetLeaderboard, Redis.ZRevRangeWithScores, h.failing]
  exact ⟨rfl, h, rfl⟩

/-- Different users have different members. -/
theorem members_nodup (uuid : UuidLib) (rows : List Participant)
    (hid : ∀ p ∈ rows, uuid.Parse (uuid.ToString p.UserID) = (p.UserID, true) ∧
      ':' ∉ (uuid.ToString p.UserID).data)
    (husers : (rows.map (fun p => p.UserID)).Nodup) :
    (rows.map (memberOf uuid)).Nodup := by
  rw [List.nodup_map_iff_inj_on (List.Nodup.of_map _ husers)]
  intro p hp q hq hpq
  have hs := memberOf_injective uuid p q (hid p hp).2 (hid q hq).2 hpq
  have hu : p.UserID = q.UserID := by
    have h1 := (hid p hp).1
    rw [hs, (hid q hq).1] at h1
    exact (Prod.mk.inj h1).1.symm
  exact (List.inj_on_of_nodup_map husers) hp hq hu

section Service

variable {δ ω : Type}

/-- C3 (amended).  Against a working cache, let a first `GetLeaderboard`
recompute the snapshot from a non-empty list of rows of different users whose
display names hold no `:`, whose scores pass unchanged through `float64` and
back to `int` (as every score of magnitude below `2^53` does), and which are
in the read order of the sorted set (score descending, equal scores in
descending member order).  Then it returns the snapshot assembled from the
rows, and a second call returns the same snapshot whatever store it is given
and whatever state that store is in, and leaves that state as it is. -/
theorem GetLeaderboard_second_call_cached (uuid : UuidLib)
    (quizRepo quizRepo2 : QuizRepository δ) (wsService : WebSocketService ω)
    (quizID : String) (w : World Redis δ ω) (rows : List Participant) (d1 db2 : δ)
    (hvalid : (uuid.Parse quizID).2 = true)
    (hup : w.redis.Up)
    (hmiss : (redisRepository.GetLeaderboard uuid quizID w.redis).1 = .ok [])
    (hstore : quizRepo.GetParticipants (uuid.Parse quizID).1 w.db = (.ok rows, d1))
    (hne : rows ≠ [])
    (hname : ∀ p ∈ rows, ':' ∉ p.Username.data)
    (hid : ∀ p ∈ rows, uuid.Parse (uuid.ToString p.UserID) = (p.UserID, true) ∧
      ':' ∉ (uuid.ToString p.UserID).data)
    (husers : (rows.map (fun p => p.UserID)).Nodup)
    (hscore : ∀ p ∈ rows, float64OfInt p.Score = p.Score ∧ intOfFloat64 p.Score = p.Score)
    (horder : (rows.map (fun p => (memberOf uuid p, p.Score))).Sorted zrevBefore) :
    ((NewQuizService uuid quizRepo (NewRedisRepository uuid) wsService).GetLeaderboard
        quizID w).1 = .ok (quizService.assemble 0 rows []) ∧
    ((NewQuizService uuid quizRepo2 (NewRedisRepository uuid) wsService).GetLeaderboard quizID
        { ((NewQuizService uuid quizRepo (NewRedisRepository uuid) wsService).GetLeaderboard
            quizID w).2 with db := db2 }).1
      = .ok (quizService.assemble 0 rows []) ∧
    ((NewQuizService uuid quizRepo2 (NewRedisRepository uuid) wsService).GetLeaderboard quizID
        { ((NewQuizService uuid quizRepo (NewRedisRepository uuid) wsService).GetLeaderboard
            quizID w).2 with db := db2 }).2.db = db2 := by
  have hr1 := redisGetLeaderboard_up uuid quizID w.redis hup
  have hfirst := GetLeaderboard_miss
    (NewQuizService uuid quizRepo (NewRedisRepository uuid) wsService) quizID w hvalid
    (by
      intro cached hc
      have : (redisRepository.GetLeaderboard uuid quizID w.redis).1 = .ok cached := hc
      rw [hmiss] at this
      cases this
      rfl)
  have hnd := members_nodup uuid rows hid husers
  have hupd := UpdateLeaderboard_up uuid quizID rows
    (redisRepository.GetLeaderboard uuid quizID w.redis).2 hr1.2.1 hnd
  have hr2 := redisGetLeaderboard_up uuid quizID _ hupd.1
  have hmap : rows.map (fun p => (memberOf uuid p, float64OfInt p.Score))
      = rows.map (fun p => (memberOf uuid p, p.Score)) :=
    List.map_congr_left (fun p hp => by rw [(hscore p hp).1])
  rw [hupd.2, hmap, List.Sorted.insertionSort_eq horder,
    decode_eq_assemble uuid rows 0 [] hname hid (fun p hp => (hscore p hp).2)] at hr2
  have hlen : 0 < (quizService.assemble 0 rows []).length := by
    rw [assemble_length]
    exact List.length_pos.mpr hne
  have hw1 : ((NewQuizService uuid quizRepo (NewRedisRepository uuid) wsService).GetLeaderboard
        quizID w).2.redis
      = (redisRepository.UpdateLeaderboard uuid quizID rows
          (redisRepository.GetLeaderboard uuid quizID w.redis).2).2 := by
    rw [hfirst]
    simp [quizService.GetLeaderboard.fromStore, NewQuizService, NewRedisRepository, hstore]
  have hsecond := GetLeaderboard_hit
    (NewQuizService uuid quizRepo2 (NewRedisRepository uuid) wsService) quizID
    { ((NewQuizService uuid quizRepo (NewRedisRepository uuid) wsService).GetLeaderboard
        quizID w).2 with db := db2 }
    (quizService.assemble 0 rows []) hvalid
    (by
      show (redisRepository.GetLeaderboard uuid quizID _).1 = _
      rw [hw1]
      exact hr2.1)
    hlen
  refine ⟨?_, ?_, ?_⟩
  · rw [hfirst]
    exact fromStore_ok _ _ _ _ rows d1 hstore
  · rw [hsecond]
  · rw [hsecond]

end Service

/-! ## The hub -/

theorem pushSend_other (heap : Heap) (c d : Nat) (message : Payload) (h : d ≠ c) :
    pushSend heap c message d = heap d := by
  simp [pushSend, Function.update_noteq h]

theorem closeSend_other (heap : Heap) (c d : Nat) (h : d ≠ c) : closeSend heap c d = heap d := by
  simp [closeSend, Function.update_noteq h]

theorem pushSend_self (heap : Heap) (c : Nat) (message : Payload) :
    pushSend heap c message c
      = { heap c with send := { (heap c).send with buf := (heap c).send.buf ++ [message] } } := by
  simp [pushSend]

theorem closeSend_self (heap : Heap) (c : Nat) :
    closeSend heap c c = { heap c with send := { (heap c).send with closed := true } } := by
  simp [closeSend]

/-- The broadcast loop over a list `l` of different clients with open channels
does not panic; it deletes from the hub exactly the clients of `l` whose buffer
was full and closes their channels, appends the message to the buffer of the
other clients of `l`, and leaves every other client alone. -/
theorem fanOut_spec (message : Payload) (l : List Nat) :
    ∀ (h : Hub) (heap : Heap), l.Nodup → (∀ c ∈ l, (heap c).send.closed = false) →
    ∃ h1 heap1, Hub.fanOut message l (h, heap) = some (h1, heap1) ∧
      h1.quizID = h.quizID ∧
      h1.clients = h.clients.filter
        (fun c => decide (¬ (c ∈ l ∧ (heap c).send.cap ≤ (heap c).send.buf.length))) ∧
      (∀ c, c ∉ l → heap1 c = heap c) ∧
      (∀ c ∈ l, (heap c).send.buf.length < (heap c).send.cap →
        heap1 c = { heap c with
          send := { (heap c).send with buf := (heap c).send.buf ++ [message] } }) ∧
      (∀ c ∈ l, (heap c).send.cap ≤ (heap c).send.buf.length →
        heap1 c = { heap c with send := { (heap c).send with closed := true } }) := by
  induction l with
  | nil =>
    intro h heap _ _
    exact ⟨h, heap, rfl, rfl, by simp, fun _ _ => rfl, by simp, by simp⟩
  | cons c rest ih =>
    intro h heap hnd hopen
    have hc := List.nodup_cons.mp hnd
    have hcopen := hopen c (by simp)
    by_cases hroom : (heap c).send.buf.length < (heap c).send.cap
    · have hopen1 : ∀ d ∈ rest, (pushSend heap c message d).send.closed = false := by
        intro d hd
        have hdc : d ≠ c := fun e => hc.1 (e ▸ hd)
        rw [pushSend_other _ _ _ _ hdc]
        exact hopen d (by simp [hd])
      obtain ⟨h1, heap1, hrun, hq, hcl, hout, hpush, hclose⟩ :=
        ih h (pushSend heap c message) hc.2 hopen1
      refine ⟨h1, heap1, ?_, hq, ?_, ?_, ?_, ?_⟩
      · simp [Hub.fanOut, Hub.broadcastTo, hcopen, hroom, hrun]
      · rw [hcl]
        apply List.filter_congr
        intro d _
        by_cases hdc : d = c
        · subst hdc
          simp [hc.1, hroom]
        · simp [pushSend_other _ _ _ _ hdc, hdc]
      · intro d hd
        have hdc : d ≠ c := fun e => hd (by simp [e])
        have hdr : d ∉ rest := fun e => hd (by simp [e])
        rw [hout d hdr, pushSend_other _ _ _ _ hdc]
      · intro d hd hlt
        by_cases hdc : d = c
        · subst hdc
          rw [hout d hc.1, pushSend_self]
        · have hdr : d ∈ rest := by simpa [hdc] using hd
          have := hpush d hdr (by rw [pushSend_other _ _ _ _ hdc]; exact hlt)
          rw [this, pushSend_other _ _ _ _ hdc]
      · intro d hd hge
        by_cases hdc : d = c
        · subst hdc
          omega
        · have hdr : d ∈ rest := by simpa [hdc] using hd
          have := hclose d hdr (by rw [pushSend_other _ _ _ _ hdc]; exact hge)
          rw [this, pushSend_other _ _ _ _ hdc]
    · have hopen1 : ∀ d ∈ rest, (closeSend heap c d).send.closed = false := by
        intro d hd
        have hdc : d ≠ c := fun e => hc.1 (e ▸ hd)
        rw [closeSend_other _ _ _ hdc]
        exact hopen d (by simp [hd])
      obtain ⟨h1, heap1, hrun, hq, hcl, hout, hpush, hclose⟩ :=
        ih (h.delete c) (closeSend heap c) hc.2 hopen1
      refine ⟨h1, heap1, ?_, hq, ?_, ?_, ?_, ?_⟩
      · simp [Hub.fanOut, Hub.broadcastTo, hcopen, hroom, hrun]
      · rw [hcl]
        simp only [Hub.delete, List.filter_filter]
        apply List.filter_congr
        intro d _
        by_cases hdc : d = c
        · subst hdc
          simp [Nat.le_of_not_lt hroom]
        · simp [closeSend_other _ _ _ hdc, hdc]
      · intro d hd
        have hdc : d ≠ c := fun e => hd (by simp [e])
        have hdr : d ∉ rest := fun e => hd (by simp [e])
        rw [hout d hdr, closeSend_other _ _ _ hdc]
      · intro d hd hlt
        by_cases hdc : d = c
        · subst hdc
          omega
        · have hdr : d ∈ rest := by simpa [hdc] using hd
          have := hpush d hdr (by rw [closeSend_other _ _ _ hdc]; exact hlt)
          rw [this, closeSend_other _ _ _ hdc]
      · intro d hd hge
        by_cases hdc : d = c
        · subst hdc
          rw [hout d hc.1, closeSend_self]
        · have hdr : d ∈ rest := by simpa [hdc] using hd
          have := hclose d hdr (by rw [closeSend_other _ _ _ hdc]; exact hge)
          rw [this, closeSend_other _ _ _ hdc]

/-! ## Goroutines -/

section Steps

variable {ρ δ ω : Type}

/-- Run alone, the steps of the invalidation goroutine are
`InvalidateLeaderboardCache`. -/
theorem finish_invalidating (s : quizService ρ δ ω) (quizID : String) (w : World ρ δ ω) :
    TaskState.finish s 1 (TaskState.invalidating quizID) w
      = some (s.InvalidateLeaderboardCache quizID w).2 := rfl

/-- Run alone, the steps of the recompute goroutine are
`updateAndBroadcastLeaderboard`. -/
theorem finish_checkViewers (s : quizService ρ δ ω) (quizID : String) (w : World ρ δ ω) :
    TaskState.finish s 5 (TaskState.checkViewers quizID) w
      = s.updateAndBroadcastLeaderboard quizID w := by
  rcases hv : s.wsService.HasLeaderboardViewers quizID w.ws with ⟨viewers, ws0⟩
  rcases hc : s.redisRepo.GetLeaderboard quizID w.redis with ⟨res, r1⟩
  rcases hs : s.quizRepo.GetParticipants (s.uuid.Parse quizID).1 w.db with ⟨got, d1⟩
  cases viewers with
  | false =>
    simp [TaskState.finish, TaskState.step, quizService.updateAndBroadcastLeaderboard, hv]
  | true =>
    by_cases hp : (s.uuid.Parse quizID).2 = false
    · simp [TaskState.finish, TaskState.step, quizService.updateAndBroadcastLeaderboard,
        quizService.GetLeaderboard, hv, hp]
    · cases res with
      | ok cached =>
        by_cases hlen : 0 < cached.length
        · cases hb : s.wsService.BroadcastLeaderboardUpdate quizID cached ws0 <;>
            simp [TaskState.finish, TaskState.step, quizService.updateAndBroadcastLeaderboard,
              quizService.GetLeaderboard, hv, hp, hc, hlen, hb]
        · cases got with
          | error e =>
            simp [TaskState.finish, TaskState.step, quizService.updateAndBroadcastLeaderboard,
              quizService.GetLeaderboard, quizService.GetLeaderboard.fromStore, hv, hp, hc,
              hlen, hs]
          | ok rows =>
            cases hb : s.wsService.BroadcastLeaderboardUpdate quizID
                (quizService.assemble 0 rows []) ws0 <;>
              simp [TaskState.finish, TaskState.step, quizService.updateAndBroadcastLeaderboard,
                quizService.GetLeaderboard, quizService.GetLeaderboard.fromStore, hv, hp, hc,
                hlen, hs, hb]
      | error e0 =>
        cases got with
        | error e =>
          simp [TaskState.finish, TaskState.step, quizService.updateAndBroadcastLeaderboard,
            quizService.GetLeaderboard, quizService.GetLeaderboard.fromStore, hv, hp, hc, hs]
        | ok rows =>
          cases hb : s.wsService.BroadcastLeaderboardUpdate quizID
              (quizService.assemble 0 rows []) ws0 <;>
            simp [TaskState.finish, TaskState.step, quizService.updateAndBroadcastLeaderboard,
              quizService.GetLeaderboard, quizService.GetLeaderboard.fromStore, hv, hp, hc,
              hs, hb]

end Steps

section Claims

open Demo

variable {ρ δ ω : Type}

/-- C1 (code defect).  A snapshot served from the cache can have a gap in its
ranks: with a participant called `a:b` (20 points) ahead of `bob` (10 points),
the first `GetLeaderboard` recomputes two entries with ranks 1 and 2 and caches
them; the second one is served from the cache, where the member of `a:b` is
skipped while the index keeps counting, and returns the single entry `bob`
with rank 2. -/
theorem GetLeaderboard_cached_rank_gap :
    (service.GetLeaderboard quizID (world dbColon)).1
      = .ok [{ UserID := 1, Username := "a:b", Score := 20, Rank := 1 },
             { UserID := 2, Username := "bob", Score := 10, Rank := 2 }] ∧
    (service.GetLeaderboard quizID (service.GetLeaderboard quizID (world dbColon)).2).1
      = .ok [{ UserID := 2, Username := "bob", Score := 10, Rank := 2 }] ∧
    ¬ ranksContiguous [{ UserID := 2, Username := "bob", Score := 10, Rank := 2 }] := by
  decide

/-- C2.  On a cache miss (the cache read fails or yields no entry), when the
store returns rows sorted by score descending, `GetLeaderboard` returns one
entry per row, in the order of the rows, each copying the user id, the display
name and the score of its row and carrying its 1-based position as rank; the
scores of the snapshot are non-increasing. -/
theorem GetLeaderboard_miss_snapshot (s : quizService ρ δ ω) (quizID : String)
    (w : World ρ δ ω) (rows : List Participant) (d1 : δ)
    (hvalid : (s.uuid.Parse quizID).2 = true)
    (hmiss : ∀ cached, (s.redisRepo.GetLeaderboard quizID w.redis).1 = .ok cached →
      cached.length = 0)
    (hstore : s.quizRepo.GetParticipants (s.uuid.Parse quizID).1 w.db = (.ok rows, d1))
    (hsorted : rows.Pairwise (fun a b => b.Score ≤ a.Score)) :
    ∃ leaderboard, (s.GetLeaderboard quizID w).1 = .ok leaderboard ∧
      leaderboard.length = rows.length ∧
      (∀ i (hi : i < rows.length), leaderboard[i]? =
        some { UserID := rows[i].UserID, Username := rows[i].Username, Score := rows[i].Score,
               Rank := (i : Int) + 1 }) ∧
      (leaderboard.map (fun e => e.Score)).Pairwise (fun a b => b ≤ a) := by
  refine ⟨quizService.assemble 0 rows [], ?_, assemble_length rows, ?_, ?_⟩
  · rw [GetLeaderboard_miss s quizID w hvalid hmiss]
    exact fromStore_ok _ _ _ _ rows d1 hstore
  · intro i hi
    rw [assemble_getElem?, List.getElem?_eq_getElem hi]
    rfl
  · rw [assemble_scores, List.pairwise_map]
    exact hsorted

/-- Witness of C2: the quiz of Alice (20 points) and Bob (10 points), read
through an empty cache. -/
theorem GetLeaderboard_miss_snapshot_witness :
    ∃ leaderboard, (service.GetLeaderboard Demo.quizID (world dbAliceBob)).1 = .ok leaderboard ∧
      leaderboard.length = rowsAliceBob.length ∧
      (∀ i (hi : i < rowsAliceBob.length), leaderboard[i]? =
        some { UserID := rowsAliceBob[i].UserID, Username := rowsAliceBob[i].Username,
               Score := rowsAliceBob[i].Score, Rank := (i : Int) + 1 }) ∧
      (leaderboard.map (fun e => e.Score)).Pairwise (fun a b => b ≤ a) :=
  GetLeaderboard_miss_snapshot service Demo.quizID (world dbAliceBob) rowsAliceBob
    dbAliceBob.tick (by decide)
    (by
      intro cached hc
      have h0 : (service.redisRepo.GetLeaderboard Demo.quizID (world dbAliceBob).redis).1
          = .ok [] := by decide
      rw [h0] at hc
      cases hc
      rfl)
    (Prod.ext (by decide) rfl) (by decide)

/-- C3 (as stated, refuted).  Two participants with 10 points each: the first
call recomputes `alice` (rank 1), `bob` (rank 2) in the order of the store; the
second call, served from the sorted set, returns `bob` (rank 1), `alice`
(rank 2).  No participant at all: the first call succeeds with an empty
snapshot, and the second call queries the store again, as it fails when the
store does.  A participant with `2^53 + 1` points: the first call returns that
score, the second call returns `2^53`, the score having gone through
`float64`. -/
theorem GetLeaderboard_second_call_differs :
    ((service.GetLeaderboard Demo.quizID (world dbTie)).1
        = .ok [{ UserID := 1, Username := "alice", Score := 10, Rank := 1 },
               { UserID := 2, Username := "bob", Score := 10, Rank := 2 }] ∧
      (service.GetLeaderboard Demo.quizID
          (service.GetLeaderboard Demo.quizID (world dbTie)).2).1
        = .ok [{ UserID := 2, Username := "bob", Score := 10, Rank := 1 },
               { UserID := 1, Username := "alice", Score := 10, Rank := 2 }]) ∧
    ((service.GetLeaderboard Demo.quizID (world (db [] []))).1 = .ok [] ∧
      (service.GetLeaderboard Demo.quizID
          { (service.GetLeaderboard Demo.quizID (world (db [] []))).2 with
            db := broken (db [] []) }).1
        = .error "db: connection error") ∧
    ((service.GetLeaderboard Demo.quizID (world dbBig)).1
        = .ok [{ UserID := 1, Username := "alice", Score := 9007199254740993, Rank := 1 }] ∧
      (service.GetLeaderboard Demo.quizID
          (service.GetLeaderboard Demo.quizID (world dbBig)).2).1
        = .ok [{ UserID := 1, Username := "alice", Score := 9007199254740992, Rank := 1 }]) := by
  decide

/-- Witness of the amended C3: Alice (20 points) and Bob (10 points); the second
call is made with a store that fails on every query. -/
theorem GetLeaderboard_second_call_cached_witness :
    (service.GetLeaderboard Demo.quizID (world dbAliceBob)).1
      = .ok (quizService.assemble 0 rowsAliceBob []) ∧
    (service.GetLeaderboard Demo.quizID
        { (service.GetLeaderboard Demo.quizID (world dbAliceBob)).2 with
          db := broken dbAliceBob }).1
      = .ok (quizService.assemble 0 rowsAliceBob []) ∧
    (service.GetLeaderboard Demo.quizID
        { (service.GetLeaderboard Demo.quizID (world dbAliceBob)).2 with
          db := broken dbAliceBob }).2.db = broken dbAliceBob :=
  GetLeaderboard_second_call_cached googleUuid NewQuizRepository NewQuizRepository
    (NewWebSocketService marshal) Demo.quizID (world dbAliceBob) rowsAliceBob dbAliceBob.tick
    (broken dbAliceBob) (by decide) (fun _ => rfl) (by decide) (Prod.ext (by decide) rfl)
    (by decide) (by decide) (by decide) (by decide)
    (fun p _ => ⟨float64OfInt_of_small p.Score (by
        have h : ∀ q ∈ rowsAliceBob, q.Score.natAbs < 2 ^ 53 := by decide
        exact h p ‹_›),
      intOfFloat64_of_small p.Score (by
        have h : ∀ q ∈ rowsAliceBob, q.Score.natAbs < 2 ^ 63 := by decide
        exact h p ‹_›)⟩)
    (by decide)

/-- C4 (code defect).  Two submissions of Alice, both correct, with one
viewer connected.  The recompute goroutine of the first submission misses the
cache and reads the store (Alice, 10) before the second answer is saved; the
goroutines of the second submission then delete the key and cache (Alice, 20);
the first goroutine finally writes its rows (Alice, 10) to the cache.  No
goroutine has a step left, the store holds 20 points for Alice, and
`GetLeaderboard` returns 10. -/
theorem recompute_race_leaves_stale_cache :
    (System.run service quiet staleSchedule).map
        (fun sys => (sys.tasks, (service.GetLeaderboard Demo.quizID sys.world).1,
          sys.world.db.sumUserScore 1 16))
      = some ([], .ok [{ UserID := 1, Username := "alice", Score := 10, Rank := 1 }], 20) := by
  decide

/-- C9.  For a valid quiz id, when the cache reads fail: `GetLeaderboard`
returns exactly the snapshot assembled from the rows the store returns, and
`GetQuiz` exactly the quiz the store returns, whatever the cache does with the
write-back; either of them returns an error only when its store call returned
that error. -/
theorem cache_failure_falls_back (s : quizService ρ δ ω) (quizID : String) (w : World ρ δ ω)
    (e1 e2 : Err)
    (hvalid : (s.uuid.Parse quizID).2 = true)
    (hleaderboard : (s.redisRepo.GetLeaderboard quizID w.redis).1 = .error e1)
    (hquiz : (s.redisRepo.GetQuizSession quizID w.redis).1 = .error e2) :
    (∀ rows d1, s.quizRepo.GetParticipants (s.uuid.Parse quizID).1 w.db = (.ok rows, d1) →
      (s.GetLeaderboard quizID w).1 = .ok (quizService.assemble 0 rows [])) ∧
    (∀ err, (s.GetLeaderboard quizID w).1 = .error err →
      (s.quizRepo.GetParticipants (s.uuid.Parse quizID).1 w.db).1 = .error err) ∧
    (∀ quiz d1, s.quizRepo.GetQuiz (s.uuid.Parse quizID).1 w.db = (.ok quiz, d1) →
      (s.GetQuiz quizID w).1 = .ok quiz) ∧
    (∀ err, (s.GetQuiz quizID w).1 = .error err →
      (s.quizRepo.GetQuiz (s.uuid.Parse quizID).1 w.db).1 = .error err) := by
  have hmiss : ∀ cached, (s.redisRepo.GetLeaderboard quizID w.redis).1 = .ok cached →
      cached.length = 0 := by
    intro cached hc
    rw [hleaderboard] at hc
    cases hc
  have hq : s.GetQuiz quizID w =
      match s.quizRepo.GetQuiz (s.uuid.Parse quizID).1 w.db with
      | (.error err, d1) =>
        (.error err, { w with redis := (s.redisRepo.GetQuizSession quizID w.redis).2, db := d1 })
      | (.ok quiz, d1) =>
        (.ok quiz,
          { w with
            redis := (s.redisRepo.SetQuizSession quizID quiz
              (s.redisRepo.GetQuizSession quizID w.redis).2).2,
            db := d1 }) := by
    unfold quizService.GetQuiz
    simp only [hvalid, Bool.true_eq_false, if_false]
    rcases hc : s.redisRepo.GetQuizSession quizID w.redis with ⟨res, r1⟩
    rw [hc] at hquiz
    simp only at hquiz
    subst hquiz
    rfl
  refine ⟨?_, ?_, ?_, ?_⟩
  · intro rows d1 hstore
    rw [GetLeaderboard_miss s quizID w hvalid hmiss]
    exact fromStore_ok _ _ _ _ rows d1 hstore
  · intro err herr
    rw [GetLeaderboard_miss s quizID w hvalid hmiss] at herr
    rcases hc : s.quizRepo.GetParticipants (s.uuid.Parse quizID).1 w.db with ⟨res, d1⟩
    cases res with
    | error e =>
      have h2 := fromStore_error s quizID (s.uuid.Parse quizID).1
        { w with redis := (s.redisRepo.GetLeaderboard quizID w.redis).2 } e d1 hc
      have he : e = err := Except.error.inj (h2.symm.trans herr)
      rw [he]
    | ok rows =>
      have h2 := fromStore_ok s quizID (s.uuid.Parse quizID).1
        { w with redis := (s.redisRepo.GetLeaderboard quizID w.redis).2 } rows d1 hc
      cases h2.symm.trans herr
  · intro quiz d1 hstore
    rw [hq, hstore]
  · intro err herr
    rw [hq] at herr
    rcases hc : s.quizRepo.GetQuiz (s.uuid.Parse quizID).1 w.db with ⟨res, d1⟩
    rw [hc] at herr
    cases res with
    | error e => exact herr
    | ok quiz => cases herr

/-- Witness of C9: a Redis server on which every command fails. -/
theorem cache_failure_falls_back_witness :
    (∀ rows d1, service.quizRepo.GetParticipants (service.uuid.Parse Demo.quizID).1 dbAliceBob
        = (.ok rows, d1) →
      (service.GetLeaderboard Demo.quizID
        { redis := redisDown, db := dbAliceBob, ws := noHubs }).1
        = .ok (quizService.assemble 0 rows [])) ∧
    (∀ err, (service.GetLeaderboard Demo.quizID
        { redis := redisDown, db := dbAliceBob, ws := noHubs }).1 = .error err →
      (service.quizRepo.GetParticipants (service.uuid.Parse Demo.quizID).1 dbAliceBob).1
        = .error err) ∧
    (∀ quiz d1, service.quizRepo.GetQuiz (service.uuid.Parse Demo.quizID).1 dbAliceBob
        = (.ok quiz, d1) →
      (service.GetQuiz Demo.quizID { redis := redisDown, db := dbAliceBob, ws := noHubs }).1
        = .ok quiz) ∧
    (∀ err, (service.GetQuiz Demo.quizID
        { redis := redisDown, db := dbAliceBob, ws := noHubs }).1 = .error err →
      (service.quizRepo.GetQuiz (service.uuid.Parse Demo.quizID).1 dbAliceBob).1 = .error err) :=
  cache_failure_falls_back service Demo.quizID
    { redis := redisDown, db := dbAliceBob, ws := noHubs }
    "redis: connection error" "redis: connection error" (by decide) (by decide) (by decide)

/-- A malformed quiz id is reported by `SubmitAnswer`, which then changes nothing
and starts no goroutine. -/
theorem SubmitAnswer_malformed_quiz (s : quizService ρ δ ω) (userID quizID : String)
    (req : SubmitAnswerRequest) (newID : UUID) (now : Time) (w : World ρ δ ω)
    (h : (s.uuid.Parse quizID).2 = false) :
    s.SubmitAnswer userID quizID req newID now w = (.error "invalid UUID", w, []) := by
  simp [quizService.SubmitAnswer, quizService.GetQuiz, h]

/-- C10 (code defect).  `SubmitAnswer` discards the error of `uuid.Parse` for
the user id: called with the user id `not-a-uuid` (which `uuid.Parse` rejects),
a valid quiz id and a valid question id, it returns a response and no error,
and saves an answer row under the user id `uuid.Nil`. -/
theorem SubmitAnswer_malformed_user_saved :
    (googleUuid.Parse "not-a-uuid").2 = false ∧
    (service.SubmitAnswer "not-a-uuid" Demo.quizID { QuestionID := q1ID, Answer := "A" } 900 5
        (world dbAliceBob)).1
      = .ok { Correct := true, NewScore := 10, Points := 10 } ∧
    (service.SubmitAnswer "not-a-uuid" Demo.quizID { QuestionID := q1ID, Answer := "A" } 900 5
        (world dbAliceBob)).2.1.db.user_answers
      = dbAliceBob.user_answers ++
        [{ ID := 900, UserID := 0, QuestionID := 17, Answer := "A", IsCorrect := true,
           AnsweredAt := 5 }] := by
  decide

end Claims

section HubClaims

open Demo

/-- C5.  In a hub whose subscribers are different clients with open queues of
capacity 256, handling one broadcast does not panic and yields a state in
which: every subscriber whose queue held fewer than 256 items is still
subscribed and its queue is its old content followed by the payload; every
subscriber whose queue held 256 items is removed and its queue is closed with
no item added; every other client, and the topic of the hub, is unchanged.
The new state again has different subscribers with open queues of capacity
256, and a following broadcast appends its payload to the queue of every
remaining subscriber that has room. -/
theorem Hub_broadcast_step (h : Hub) (heap : Heap) (message : Payload)
    (hnodup : h.clients.Nodup)
    (hopen : ∀ c ∈ h.clients, (heap c).send.closed = false ∧ (heap c).send.cap = 256) :
    ∃ h1 heap1, h.run heap (HubEvent.broadcast message) = some (h1, heap1) ∧
      (∀ c ∈ h.clients, (heap c).send.buf.length < 256 →
        c ∈ h1.clients ∧
        heap1 c = { heap c with
          send := { (heap c).send with buf := (heap c).send.buf ++ [message] } }) ∧
      (∀ c ∈ h.clients, 256 ≤ (heap c).send.buf.length →
        c ∉ h1.clients ∧
        heap1 c = { heap c with send := { (heap c).send with closed := true } }) ∧
      (∀ c, c ∉ h.clients → c ∉ h1.clients ∧ heap1 c = heap c) ∧
      h1.quizID = h.quizID ∧
      h1.clients.Nodup ∧
      (∀ c ∈ h1.clients, (heap1 c).send.closed = false ∧ (heap1 c).send.cap = 256) ∧
      (∀ message2, ∃ h2 heap2, h1.run heap1 (HubEvent.broadcast message2) = some (h2, heap2) ∧
        ∀ c ∈ h1.clients, (heap1 c).send.buf.length < 256 →
          c ∈ h2.clients ∧ (heap2 c).send.buf = (heap1 c).send.buf ++ [message2]) := by
  obtain ⟨h1, heap1, hrun, hq, hcl, hout, hpush, hclose⟩ :=
    fanOut_spec message h.clients h heap hnodup (fun c hc => (hopen c hc).1)
  have hmem : ∀ c, c ∈ h1.clients ↔ c ∈ h.clients ∧ (heap c).send.buf.length < 256 := by
    intro c
    rw [hcl, List.mem_filter]
    constructor
    · rintro ⟨hc, hk⟩
      have h256 := (hopen c hc).2
      simp only [decide_eq_true_eq, not_and, not_le] at hk
      exact ⟨hc, by have := hk hc; omega⟩
    · rintro ⟨hc, hk⟩
      have h256 := (hopen c hc).2
      refine ⟨hc, ?_⟩
      simp only [decide_eq_true_eq, not_and, not_le]
      intro _
      omega
  have hnodup1 : h1.clients.Nodup := by
    rw [hcl]
    exact hnodup.filter _
  have hopen1 : ∀ c ∈ h1.clients, (heap1 c).send.closed = false ∧ (heap1 c).send.cap = 256 := by
    intro c hc
    obtain ⟨hc0, hlt⟩ := (hmem c).mp hc
    have h0 := hopen c hc0
    rw [hpush c hc0 (by omega)]
    exact h0
  refine ⟨h1, heap1, hrun, ?_, ?_, ?_, hq, hnodup1, hopen1, ?_⟩
  · intro c hc hlt
    have h256 := (hopen c hc).2
    exact ⟨(hmem c).mpr ⟨hc, hlt⟩, hpush c hc (by omega)⟩
  · intro c hc hge
    have h256 := (hopen c hc).2
    refine ⟨fun hin => ?_, hclose c hc (by omega)⟩
    have := ((hmem c).mp hin).2
    omega
  · intro c hc
    exact ⟨fun hin => hc ((hmem c).mp hin).1, hout c hc⟩
  · intro message2
    obtain ⟨h2, heap2, hrun2, _, hcl2, _, hpush2, _⟩ :=
      fanOut_spec message2 h1.clients h1 heap1 hnodup1 (fun c hc => (hopen1 c hc).1)
    refine ⟨h2, heap2, hrun2, ?_⟩
    intro c hc hlt
    have h256 := (hopen1 c hc).2
    refine ⟨?_, ?_⟩
    · rw [hcl2, List.mem_filter]
      refine ⟨hc, ?_⟩
      simp only [decide_eq_true_eq, not_and, not_le]
      intro _
      omega
    · rw [hpush2 c hc (by omega)]

/-- Witness of C5: client 0 has an empty queue, client 1 has 256 unread messages. -/
theorem Hub_broadcast_step_witness :
    ∃ h1 heap1, Demo.hub.run Demo.heap (HubEvent.broadcast "x") = some (h1, heap1) ∧
      (∀ c ∈ Demo.hub.clients, (Demo.heap c).send.buf.length < 256 →
        c ∈ h1.clients ∧
        heap1 c = { Demo.heap c with
          send := { (Demo.heap c).send with buf := (Demo.heap c).send.buf ++ ["x"] } }) ∧
      (∀ c ∈ Demo.hub.clients, 256 ≤ (Demo.heap c).send.buf.length →
        c ∉ h1.clients ∧
        heap1 c = { Demo.heap c with send := { (Demo.heap c).send with closed := true } }) ∧
      (∀ c, c ∉ Demo.hub.clients → c ∉ h1.clients ∧ heap1 c = Demo.heap c) ∧
      h1.quizID = Demo.hub.quizID ∧
      h1.clients.Nodup ∧
      (∀ c ∈ h1.clients, (heap1 c).send.closed = false ∧ (heap1 c).send.cap = 256) ∧
      (∀ message2, ∃ h2 heap2, h1.run heap1 (HubEvent.broadcast message2) = some (h2, heap2) ∧
        ∀ c ∈ h1.clients, (heap1 c).send.buf.length < 256 →
          c ∈ h2.clients ∧ (heap2 c).send.buf = (heap1 c).send.buf ++ [message2]) :=
  Hub_broadcast_step Demo.hub Demo.heap "x" (by decide) (by decide)

/-- C6.  Let `A` and `B` be different topics of a registry in which no client
is subscribed to both and the subscribers of `B` are different clients with
open queues.  `BroadcastLeaderboardUpdate` for `B`, followed by the hub of `B`
handling the message, does not panic and leaves the registry entry of `A` as
it was (the same hub, so the same subscriber set) and the client of every
subscriber of `A` as it was (the same queue content: no payload received). -/
theorem broadcast_other_topic_unchanged (marshal : LeaderboardUpdate → Except Err Payload)
    (s : webSocketService) (A B : String) (leaderboard : List LeaderboardEntry)
    (hAB : A ≠ B)
    (hB : ∀ hubB, s.hubs B = some hubB →
      hubB.clients.Nodup ∧ ∀ c ∈ hubB.clients, (s.heap c).send.closed = false)
    (hdisjoint : ∀ hubA hubB, s.hubs A = some hubA → s.hubs B = some hubB →
      ∀ c ∈ hubA.clients, c ∉ hubB.clients) :
    ∃ s1, s.BroadcastLeaderboardUpdate marshal B leaderboard = some s1 ∧
      s1.hubs A = s.hubs A ∧
      ∀ hubA, s.hubs A = some hubA → ∀ c ∈ hubA.clients, s1.heap c = s.heap c := by
  unfold webSocketService.BroadcastLeaderboardUpdate
  simp only
  cases hm : marshal (LeaderboardUpdate.mk "leaderboard_update" leaderboard 0) with
  | error e => exact ⟨s, rfl, rfl, fun _ _ _ _ => rfl⟩
  | ok message =>
    cases hb : s.hubs B with
    | none => exact ⟨s, rfl, rfl, fun _ _ _ _ => rfl⟩
    | some hubB =>
      obtain ⟨hnd, hopen⟩ := hB hubB hb
      obtain ⟨h1, heap1, hrun, _, _, hout, _, _⟩ :=
        fanOut_spec message hubB.clients hubB s.heap hnd hopen
      refine ⟨{ s with hubs := Function.update s.hubs B (some h1), heap := heap1 }, ?_, ?_, ?_⟩
      · simp [webSocketService.deliver, hb, Hub.run, hrun]
      · simp [Function.update_noteq hAB]
      · intro hubA ha c hc
        exact hout c (hdisjoint hubA hubB ha hb c hc)

/-- Witness of C6: a broadcast for topic `b` in a registry that also holds topic `a`. -/
theorem broadcast_other_topic_unchanged_witness :
    ∃ s1, Demo.registry.BroadcastLeaderboardUpdate Demo.marshal "b" [] = some s1 ∧
      s1.hubs "a" = Demo.registry.hubs "a" ∧
      ∀ hubA, Demo.registry.hubs "a" = some hubA →
        ∀ c ∈ hubA.clients, s1.heap c = Demo.registry.heap c :=
  broadcast_other_topic_unchanged Demo.marshal Demo.registry "a" "b" [] (by decide)
    (by
      intro hubB hb
      have h2 : Demo.registry.hubs "b" = some { clients := [2], quizID := "b" } := by decide
      rw [h2] at hb
      cases hb
      decide)
    (by
      intro hubA hubB ha hb
      have h1 : Demo.registry.hubs "a" = some Demo.hub := by decide
      have h2 : Demo.registry.hubs "b" = some { clients := [2], quizID := "b" } := by decide
      rw [h1] at ha
      rw [h2] at hb
      cases ha
      cases hb
      decide)

/-- C7.  In a hub whose subscribers are different clients with open queues,
handling `unregister` of a client `c` does not panic.  If `c` is not
subscribed the state is unchanged.  If `c` is subscribed, `c` is removed, the
queue of `c` is closed with its content kept, and every other client stays
subscribed or not as it was, with its queue as it was.  Handling the same
`unregister` a second time changes nothing, and neither does handling it
after a broadcast that evicted `c`. -/
theorem Hub_unregister_step (h : Hub) (heap : Heap) (c : Nat)
    (hnodup : h.clients.Nodup)
    (hopen : ∀ d ∈ h.clients, (heap d).send.closed = false) :
    (c ∉ h.clients → h.run heap (HubEvent.unregister c) = some (h, heap)) ∧
    (c ∈ h.clients → ∃ h1 heap1, h.run heap (HubEvent.unregister c) = some (h1, heap1) ∧
      c ∉ h1.clients ∧ (heap1 c).send.closed = true ∧
      (heap1 c).send.buf = (heap c).send.buf ∧
      (∀ d, d ≠ c → (d ∈ h1.clients ↔ d ∈ h.clients) ∧ heap1 d = heap d)) ∧
    (∃ h1 heap1, h.run heap (HubEvent.unregister c) = some (h1, heap1) ∧
      h1.run heap1 (HubEvent.unregister c) = some (h1, heap1)) ∧
    (∀ message, c ∈ h.clients → (heap c).send.cap ≤ (heap c).send.buf.length →
      ∃ h1 heap1, h.run heap (HubEvent.broadcast message) = some (h1, heap1) ∧
        c ∉ h1.clients ∧ (heap1 c).send.closed = true ∧
        h1.run heap1 (HubEvent.unregister c) = some (h1, heap1)) := by
  have hdel : c ∉ (h.delete c).clients := by simp [Hub.delete]
  refine ⟨?_, ?_, ?_, ?_⟩
  · intro hc
    simp [Hub.run, hc]
  · intro hc
    refine ⟨h.delete c, closeSend heap c, ?_, hdel, ?_, ?_, ?_⟩
    · simp [Hub.run, hc, hopen c hc]
    · simp [closeSend]
    · simp [closeSend]
    · intro d hd
      exact ⟨by simp [Hub.delete, hd], closeSend_other _ _ _ hd⟩
  · by_cases hc : c ∈ h.clients
    · refine ⟨h.delete c, closeSend heap c, ?_, ?_⟩
      · simp [Hub.run, hc, hopen c hc]
      · simp only [Hub.run, hdel, if_false]
    · exact ⟨h, heap, by simp [Hub.run, hc], by simp [Hub.run, hc]⟩
  · intro message hc hfull
    obtain ⟨h1, heap1, hrun, _, hcl, _, _, hclose⟩ :=
      fanOut_spec message h.clients h heap hnodup hopen
    have hout : c ∉ h1.clients := by
      rw [hcl, List.mem_filter]
      simp [hc, hfull]
    refine ⟨h1, heap1, hrun, hout, ?_, ?_⟩
    · rw [hclose c hc hfull]
    · simp only [Hub.run, hout, if_false]

/-- Witness of C7: client 1 is unregistered from the hub of clients 0 and 1. -/
theorem Hub_unregister_step_witness :
    (1 ∉ Demo.hub.clients → Demo.hub.run Demo.heap (HubEvent.unregister 1)
      = some (Demo.hub, Demo.heap)) ∧
    (1 ∈ Demo.hub.clients → ∃ h1 heap1,
      Demo.hub.run Demo.heap (HubEvent.unregister 1) = some (h1, heap1) ∧
      1 ∉ h1.clients ∧ (heap1 1).send.closed = true ∧
      (heap1 1).send.buf = (Demo.heap 1).send.buf ∧
      (∀ d, d ≠ 1 → (d ∈ h1.clients ↔ d ∈ Demo.hub.clients) ∧ heap1 d = Demo.heap d)) ∧
    (∃ h1 heap1, Demo.hub.run Demo.heap (HubEvent.unregister 1) = some (h1, heap1) ∧
      h1.run heap1 (HubEvent.unregister 1) = some (h1, heap1)) ∧
    (∀ message, 1 ∈ Demo.hub.clients →
      (Demo.heap 1).send.cap ≤ (Demo.heap 1).send.buf.length →
      ∃ h1 heap1, Demo.hub.run Demo.heap (HubEvent.broadcast message) = some (h1, heap1) ∧
        1 ∉ h1.clients ∧ (heap1 1).send.closed = true ∧
        h1.run heap1 (HubEvent.unregister 1) = some (h1, heap1)) :=
  Hub_unregister_step Demo.hub Demo.heap 1 (by decide) (by decide)

/-- C8.  `HasLeaderboardViewers` returns `true` exactly when the registry
holds a hub for the topic and that hub has at least one subscriber, and it
leaves the service as it was (no hub is created). -/
theorem HasLeaderboardViewers_spec (s : webSocketService) (quizID : String) :
    ((s.HasLeaderboardViewers quizID).1 = true ↔
      ∃ hub, s.hubs quizID = some hub ∧ hub.clients ≠ []) ∧
    (s.HasLeaderboardViewers quizID).2 = s := by
  unfold webSocketService.HasLeaderboardViewers
  cases hh : s.hubs quizID with
  | none => simp
  | some hub => simp [List.length_pos]

end HubClaims


/-! ## The response boundary -/

section Handler

open Demo

variable {ω : Type}

theorem Redis.Up.Get {r : Redis} (h : r.Up) (key : String) :
    (r.Get key).2.Up ∧ (r.Get key).2.strs = r.strs ∧
      (r.Get key).1 = (match kvGet key r.strs with
        | some v => .ok v
        | none => .error "redis: nil") := by
  simp only [Redis.Get, h.failing]
  cases kvGet key r.strs <;> exact ⟨h, rfl, rfl⟩

theorem Redis.Up.Set {r : Redis} (h : r.Up) (key : String) (value : CacheValue) :
    (r.Set key value).2.Up ∧ kvGet key (r.Set key value).2.strs = some value := by
  simp only [Redis.Set, h.failing]
  exact ⟨h, kvGet_kvSet_self _ _ _⟩

/-- The tables of the database are not changed by `quizRepository.GetQuiz`. -/
theorem quizRepository_GetQuiz_tables (id : UUID) (db : Db) :
    (quizRepository.GetQuiz id db).2.questions = db.questions ∧
    (quizRepository.GetQuiz id db).2.quiz_sessions = db.quiz_sessions ∧
    (quizRepository.GetQuiz id db).2.user_answers = db.user_answers ∧
    (quizRepository.GetQuiz id db).2.users = db.users := by
  unfold quizRepository.GetQuiz
  by_cases hf : db.failing = true
  · simp [hf, Db.tick]
  · simp only [hf, if_false]
    cases db.quiz_sessions.find? (fun q => decide (q.ID = id)) <;> simp [Db.tick]

/-- C11.  When the service's `GetQuiz` returns a quiz, the handler answers 200
with that quiz in which every question has an empty `CorrectAnswer` and every
other field (id, title, status, times, and the id, quiz id, text, options,
points and order of each question) is as the service returned it, and it
leaves the world as the service left it.  The tables of the store are as
before the call, and, when the cache works, the cache then holds under the key
of the quiz the quiz the service returned, correct answers included. -/
theorem GetQuiz_handler_redacts (uuid : UuidLib) (wsService : WebSocketService ω)
    (quizID : String) (w w1 : World Redis Db ω) (quiz : QuizSession)
    (hok : (NewQuizService uuid NewQuizRepository (NewRedisRepository uuid) wsService).GetQuiz
      quizID w = (.ok quiz, w1)) :
    ∃ response,
      QuizHandler.GetQuiz (NewQuizService uuid NewQuizRepository (NewRedisRepository uuid)
        wsService) quizID w = ({ status := 200, body := ResponseBody.quiz response }, w1) ∧
      response.ID = quiz.ID ∧ response.Title = quiz.Title ∧ response.Status = quiz.Status ∧
      response.CreatedAt = quiz.CreatedAt ∧ response.ExpiresAt = quiz.ExpiresAt ∧
      response.Questions.length = quiz.Questions.length ∧
      (∀ i (hi : i < quiz.Questions.length), ∃ q, response.Questions[i]? = some q ∧
        q.CorrectAnswer = "" ∧ q.ID = quiz.Questions[i].ID ∧
        q.QuizSessionID = quiz.Questions[i].QuizSessionID ∧
        q.QuestionText = quiz.Questions[i].QuestionText ∧
        q.Options = quiz.Questions[i].Options ∧ q.Points = quiz.Questions[i].Points ∧
        q.Order = quiz.Questions[i].Order) ∧
      w1.db.questions = w.db.questions ∧ w1.db.quiz_sessions = w.db.quiz_sessions ∧
      (w.redis.Up → kvGet (quizKey quizID) w1.redis.strs = some (CacheValue.quizJson quiz)) := by
  refine ⟨redact quiz, ?_, rfl, rfl, rfl, rfl, rfl, by simp [redact], ?_, ?_⟩
  · simp [QuizHandler.GetQuiz, hok]
  · intro i hi
    refine ⟨{ quiz.Questions[i] with CorrectAnswer := "" }, ?_, rfl, rfl, rfl, rfl, rfl, rfl, rfl⟩
    simp [redact, List.getElem?_eq_getElem hi]
  · unfold quizService.GetQuiz at hok
    by_cases hp : (uuid.Parse quizID).2 = false
    · simp [NewQuizService, hp] at hok
    · simp only [NewQuizService, NewRedisRepository, NewQuizRepository, hp, if_false] at hok
      rcases hc : redisRepository.GetQuizSession quizID w.redis with ⟨res, r1⟩
      rw [hc] at hok
      have hget : redisRepository.GetQuizSession quizID w.redis = (res, r1) := hc
      unfold redisRepository.GetQuizSession at hget
      cases res with
      | ok cached =>
        simp only [Prod.mk.injEq, Except.ok.injEq] at hok
        obtain ⟨hq, hw⟩ := hok
        refine ⟨rfl, rfl, ?_⟩
        intro hup
        have hg := hup.Get (quizKey quizID)
        rcases hr : w.redis.Get (quizKey quizID) with ⟨got, r2⟩
        rw [hr] at hget hg
        simp only at hg
        cases got with
        | error e => simp at hget
        | ok v =>
          cases v with
          | text t => simp at hget
          | quizJson session =>
            simp only [Prod.mk.injEq, Except.ok.injEq] at hget
            obtain ⟨hs, hr1⟩ := hget
            subst hs hr1
            show kvGet (quizKey quizID) r2.strs = _
            rw [hg.2.1]
            cases hk : kvGet (quizKey quizID) w.redis.strs with
            | none => rw [hk] at hg; simp at hg
            | some v => rw [hk] at hg; simpa using hg.2.2.symm
      | error e =>
        simp only at hok
        rcases hd : quizRepository.GetQuiz (uuid.Parse quizID).1 w.db with ⟨got, d1⟩
        have ht := quizRepository_GetQuiz_tables (uuid.Parse quizID).1 w.db
        rw [hd] at hok ht
        cases got with
        | error e2 => simp at hok
        | ok stored =>
          simp only [Prod.mk.injEq, Except.ok.injEq] at hok
          obtain ⟨hq, hw⟩ := hok
          refine ⟨ht.1, ht.2.1, ?_⟩
          intro hup
          have hr1up : r1.Up := by
            have hg := hup.Get (quizKey quizID)
            rcases hr : w.redis.Get (quizKey quizID) with ⟨got, r2⟩
            rw [hr] at hget hg
            cases got with
            | error e3 =>
              simp only [Prod.mk.injEq] at hget
              rw [← hget.2]; exact hg.1
            | ok v =>
              cases v with
              | text t =>
                simp only [Prod.mk.injEq] at hget
                rw [← hget.2]; exact hg.1
              | quizJson session => simp at hget
          exact (hr1up.Set (quizKey quizID) (CacheValue.quizJson quiz)).2

/-- Witness of C11: the quiz of the examples, read through an empty working cache. -/
theorem GetQuiz_handler_redacts_witness :
    ∃ response,
      QuizHandler.GetQuiz service Demo.quizID (world dbAliceBob)
        = ({ status := 200, body := ResponseBody.quiz response },
            (service.GetQuiz Demo.quizID (world dbAliceBob)).2) ∧
      response.ID = quizStored.ID ∧ response.Title = quizStored.Title ∧
      response.Status = quizStored.Status ∧
      response.CreatedAt = quizStored.CreatedAt ∧ response.ExpiresAt = quizStored.ExpiresAt ∧
      response.Questions.length = quizStored.Questions.length ∧
      (∀ i (hi : i < quizStored.Questions.length), ∃ q, response.Questions[i]? = some q ∧
        q.CorrectAnswer = "" ∧ q.ID = quizStored.Questions[i].ID ∧
        q.QuizSessionID = quizStored.Questions[i].QuizSessionID ∧
        q.QuestionText = quizStored.Questions[i].QuestionText ∧
        q.Options = quizStored.Questions[i].Options ∧ q.Points = quizStored.Questions[i].Points ∧
        q.Order = quizStored.Questions[i].Order) ∧
      (service.GetQuiz Demo.quizID (world dbAliceBob)).2.db.questions
        = (world dbAliceBob).db.questions ∧
      (service.GetQuiz Demo.quizID (world dbAliceBob)).2.db.quiz_sessions
        = (world dbAliceBob).db.quiz_sessions ∧
      ((world dbAliceBob).redis.Up →
        kvGet (quizKey Demo.quizID) (service.GetQuiz Demo.quizID (world dbAliceBob)).2.redis.strs
          = some (CacheValue.quizJson quizStored)) :=
  GetQuiz_handler_redacts googleUuid (NewWebSocketService marshal) Demo.quizID
    (world dbAliceBob) (service.GetQuiz Demo.quizID (world dbAliceBob)).2 quizStored
    (Prod.ext (by decide) rfl)

/-- C12 (code defect).  The member written for a participant called `a:b` is
`<id>:a:b`; `strings.Split` cuts it into three parts, so the decoding loop of
`redisRepository.GetLeaderboard` skips it: the participant written to the
cache by `UpdateLeaderboard` is missing when the cache is read back. -/
theorem member_with_colon_dropped :
    strings.Split (memberOf googleUuid colonRow) ':'
      = ["00000000-0000-0000-0000-000000000001", "a", "b"] ∧
    (redisRepository.GetLeaderboard googleUuid Demo.quizID
        (redisRepository.UpdateLeaderboard googleUuid Demo.quizID [colonRow] redisUp).2).1
      = .ok [] := by
  decide

end Handler

/-! ## The invariant of a hub -/

section HubInvariant

open Demo

theorem registrations_take_sublist (events : List HubEvent) :
    ∀ k, (registrations (events.take k)).Sublist (registrations events) := by
  induction events with
  | nil => intro k; simp [registrations]
  | cons ev rest ih =>
    intro k
    cases k with
    | zero => simp [registrations]
    | succ k =>
      cases ev with
      | register c =>
        simp only [List.take_succ_cons, registrations]
        exact (ih k).cons₂ c
      | unregister c =>
        simp only [List.take_succ_cons, registrations]
        exact ih k
      | broadcast m =>
        simp only [List.take_succ_cons, registrations]
        exact ih k

/-- From a state whose subscribers are different clients with open queues, a
run of events in which every registered client is registered once, is not yet
subscribed and has an open queue, does not panic and ends in a state whose
subscribers are different clients with open queues. -/
theorem runAll_invariant (events : List HubEvent) :
    ∀ (h : Hub) (heap : Heap), h.clients.Nodup →
    (∀ c ∈ h.clients, (heap c).send.closed = false) →
    (registrations events).Nodup →
    (∀ c ∈ registrations events, (heap c).send.closed = false ∧ c ∉ h.clients) →
    ∃ h1 heap1, Hub.runAll (h, heap) events = some (h1, heap1) ∧ h1.clients.Nodup ∧
      ∀ c ∈ h1.clients, (heap1 c).send.closed = false := by
  induction events with
  | nil =>
    intro h heap hnd hopen _ _
    exact ⟨h, heap, rfl, hnd, hopen⟩
  | cons ev rest ih =>
    intro h heap hnd hopen hfresh hnew
    cases ev with
    | register c =>
      simp only [registrations, List.nodup_cons] at hfresh
      have hc := hnew c (by simp [registrations])
      have hstep : h.run heap (HubEvent.register c)
          = some ({ h with clients := h.clients ++ [c] }, heap) := by
        simp [Hub.run, hc.2]
      obtain ⟨h1, heap1, hrun, hres⟩ := ih { h with clients := h.clients ++ [c] } heap
        (by
          rw [List.nodup_append]
          refine ⟨hnd, List.nodup_singleton c, ?_⟩
          intro a ha hb
          rw [List.mem_singleton] at hb
          exact hc.2 (hb ▸ ha))
        (by
          intro d hd
          rcases List.mem_append.mp hd with hd | hd
          · exact hopen d hd
          · rw [List.mem_singleton] at hd
            rw [hd]; exact hc.1)
        hfresh.2
        (by
          intro d hd
          have h0 := hnew d (by simp [registrations, hd])
          refine ⟨h0.1, ?_⟩
          intro hin
          rcases List.mem_append.mp hin with hin | hin
          · exact h0.2 hin
          · rw [List.mem_singleton] at hin
            exact hfresh.1 (hin ▸ hd))
      exact ⟨h1, heap1, by simp [Hub.runAll, hstep, hrun], hres⟩
    | unregister c =>
      simp only [registrations] at hfresh hnew
      by_cases hc : c ∈ h.clients
      · have hstep : h.run heap (HubEvent.unregister c)
            = some (h.delete c, closeSend heap c) := by
          simp [Hub.run, hc, hopen c hc]
        obtain ⟨h1, heap1, hrun, hres⟩ := ih (h.delete c) (closeSend heap c)
          (by simpa [Hub.delete] using hnd.filter _)
          (by
            intro d hd
            have hd2 : d ∈ h.clients ∧ d ≠ c := by simpa [Hub.delete] using hd
            rw [closeSend_other _ _ _ hd2.2]
            exact hopen d hd2.1)
          hfresh
          (by
            intro d hd
            have h0 := hnew d hd
            have hdc : d ≠ c := fun e => h0.2 (e ▸ hc)
            rw [closeSend_other _ _ _ hdc]
            exact ⟨h0.1, fun hin => h0.2 (by
              have : d ∈ h.clients ∧ d ≠ c := by simpa [Hub.delete] using hin
              exact this.1)⟩)
        exact ⟨h1, heap1, by simp [Hub.runAll, hstep, hrun], hres⟩
      · have hstep : h.run heap (HubEvent.unregister c) = some (h, heap) := by
          simp [Hub.run, hc]
        obtain ⟨h1, heap1, hrun, hres⟩ := ih h heap hnd hopen hfresh hnew
        exact ⟨h1, heap1, by simp [Hub.runAll, hstep, hrun], hres⟩
    | broadcast message =>
      simp only [registrations] at hfresh hnew
      obtain ⟨h0, heap0, hstep, _, hcl, hout, hpush, hclose⟩ :=
        fanOut_spec message h.clients h heap hnd hopen
      have hsub : ∀ d, d ∈ h0.clients → d ∈ h.clients ∧
          (heap d).send.buf.length < (heap d).send.cap := by
        intro d hd
        rw [hcl, List.mem_filter] at hd
        refine ⟨hd.1, ?_⟩
        have := hd.2
        simp only [decide_eq_true_eq, not_and, not_le] at this
        exact this hd.1
      obtain ⟨h1, heap1, hrun, hres⟩ := ih h0 heap0
        (by rw [hcl]; exact hnd.filter _)
        (by
          intro d hd
          obtain ⟨hd1, hd2⟩ := hsub d hd
          rw [hpush d hd1 hd2]
          exact hopen d hd1)
        hfresh
        (by
          intro d hd
          have hn := hnew d hd
          rw [hout d hn.2]
          exact ⟨hn.1, fun hin => hn.2 (hsub d hin).1⟩)
      exact ⟨h1, heap1, by simp [Hub.runAll, Hub.run, hstep, hrun], hres⟩

/-- C14.  Start from a newly created hub (no subscriber) and handle any list
of register, unregister and broadcast events in which every registered client
is registered once and enters with an open queue.  After every number `k` of
events the run has not panicked (no closed queue was closed again, no message
was sent on a closed queue), every subscriber has an open queue, every client
whose queue is closed is not subscribed, and the subscribers are pairwise
different. -/
theorem Hub_invariant (quizID : String) (heap0 : Heap) (events : List HubEvent)
    (hfresh : (registrations events).Nodup)
    (hopen : ∀ c ∈ registrations events, (heap0 c).send.closed = false) :
    ∀ k, ∃ h heap,
      Hub.runAll ({ clients := [], quizID := quizID }, heap0) (events.take k) = some (h, heap) ∧
      (∀ c ∈ h.clients, (heap c).send.closed = false) ∧
      (∀ c, (heap c).send.closed = true → c ∉ h.clients) ∧
      h.clients.Nodup := by
  intro k
  have hsub := registrations_take_sublist events k
  obtain ⟨h, heap, hrun, hnd, hop⟩ :=
    runAll_invariant (events.take k) { clients := [], quizID := quizID } heap0
      List.nodup_nil (by simp) (hfresh.sublist hsub)
      (fun c hc => ⟨hopen c (hsub.subset hc), by simp⟩)
  refine ⟨h, heap, hrun, hop, ?_, hnd⟩
  intro c hclosed hin
  rw [hop c hin] at hclosed
  cases hclosed

/-- Witness of C14: clients 1 (with 256 unread messages) and 0 register, a
broadcast evicts client 1, then client 1 unregisters; the state after these
four events. -/
theorem Hub_invariant_witness :
    ∃ h heap,
      Hub.runAll ({ clients := [], quizID := "a" }, Demo.heap) (Demo.events.take 4)
        = some (h, heap) ∧
      (∀ c ∈ h.clients, (heap c).send.closed = false) ∧
      (∀ c, (heap c).send.closed = true → c ∉ h.clients) ∧
      h.clients.Nodup :=
  Hub_invariant "a" Demo.heap Demo.events (by decide) (by decide) 4

end HubInvariant

/-! ## Cache keys -/

section CacheKeys

open Demo

variable {δ ω : Type}

theorem Redis.Del_down (r : Redis) (key : String) : (r.Del key).2.down = r.down := by
  unfold Redis.Del
  by_cases hf : r.failing = true <;> simp [hf, Redis.tick]

theorem Redis.ZAdd_down (r : Redis) (key : String) (score : Int) (member : String) :
    (r.ZAdd key score member).2.down = r.down := by
  unfold Redis.ZAdd
  by_cases hf : r.failing = true <;> simp [hf, Redis.tick]

theorem Redis.Expire_down (r : Redis) (key : String) : (r.Expire key).2.down = r.down := by
  unfold Redis.Expire
  by_cases hf : r.failing = true <;> simp [hf, Redis.tick]

theorem addAll_down (uuid : UuidLib) (key : String) (rows : List Participant) :
    ∀ r : Redis, (redisRepository.addAll uuid key rows r).down = r.down := by
  induction rows with
  | nil => intro r; rfl
  | cons p rest ih =>
    intro r
    simp only [redisRepository.addAll]
    rw [ih, Redis.ZAdd_down]

/-- A working server keeps working through `UpdateLeaderboard`. -/
theorem UpdateLeaderboard_keeps_up (uuid : UuidLib) (quizID : String)
    (rows : List Participant) (r : Redis) (h : r.Up) :
    (redisRepository.UpdateLeaderboard uuid quizID rows r).2.Up := by
  intro n
  simp only [redisRepository.UpdateLeaderboard]
  rw [Redis.Expire_down, addAll_down, Redis.Del_down]
  exact h n

/-- A working cache keeps working through `GetLeaderboard`. -/
theorem GetLeaderboard_keeps_up (uuid : UuidLib) (quizRepo : QuizRepository δ)
    (wsService : WebSocketService ω) (quizID : String) (w : World Redis δ ω)
    (hup : w.redis.Up) :
    ((NewQuizService uuid quizRepo (NewRedisRepository uuid) wsService).GetLeaderboard
      quizID w).2.redis.Up := by
  have hr := redisGetLeaderboard_up uuid quizID w.redis hup
  unfold quizService.GetLeaderboard
  by_cases hp : (uuid.Parse quizID).2 = false
  · simpa [NewQuizService, hp] using hup
  · simp only [NewQuizService, NewRedisRepository, hp, if_false]
    rcases hc : redisRepository.GetLeaderboard uuid quizID w.redis with ⟨res, r1⟩
    rw [hc] at hr
    have hfs : ∀ (w2 : World Redis δ ω), w2.redis = r1 →
        (quizService.GetLeaderboard.fromStore
          { quizRepo := quizRepo,
            redisRepo :=
              { SetQuizSession := redisRepository.SetQuizSession,
                GetQuizSession := redisRepository.GetQuizSession,
                UpdateLeaderboard := redisRepository.UpdateLeaderboard uuid,
                GetLeaderboard := redisRepository.GetLeaderboard uuid,
                DeleteKey := redisRepository.DeleteKey },
            wsService := wsService, uuid := uuid }
          quizID (uuid.Parse quizID).1 w2).2.redis.Up := by
      intro w2 hw2
      unfold quizService.GetLeaderboard.fromStore
      rcases hs : quizRepo.GetParticipants (uuid.Parse quizID).1 w2.db with ⟨got, d1⟩
      cases got with
      | error e => simpa [hw2] using hr.2.1
      | ok rows =>
        simp only [hw2]
        exact UpdateLeaderboard_keeps_up uuid quizID rows r1 hr.2.1
    cases res with
    | error e => exact hfs _ rfl
    | ok cached =>
      by_cases hlen : 0 < cached.length
      · simpa [hlen] using hr.2.1
      · simp only [hlen, if_false]
        exact hfs _ rfl

/-- Different texts of a quiz id name different cache entries. -/
theorem leaderboardKey_injective (a b : String) (h : leaderboardKey a = leaderboardKey b) :
    a = b := by
  have hd := congrArg String.data h
  simp only [leaderboardKey, String.data_append] at hd
  exact String.ext (List.append_cancel_left hd)

/-- C15 (as stated, refuted).  The two texts of one quiz id in lower and in
upper case are accepted by `uuid.Parse` and give the same UUID.  After
`GetLeaderboard` with the lower-case text has cached a snapshot and
`InvalidateLeaderboardCache` with the upper-case text has succeeded, the next
`GetLeaderboard` with the lower-case text still returns the cached snapshot:
it succeeds although every query of the store fails. -/
theorem invalidate_other_spelling_keeps_cache :
    googleUuid.Parse hexLower = (171, true) ∧ googleUuid.Parse hexUpper = (171, true) ∧
    (service.GetLeaderboard hexLower (world dbHex)).1
      = .ok [{ UserID := 1, Username := "alice", Score := 10, Rank := 1 }] ∧
    (service.InvalidateLeaderboardCache hexUpper
        (service.GetLeaderboard hexLower (world dbHex)).2).1 = none ∧
    (service.GetLeaderboard hexLower
        { (service.InvalidateLeaderboardCache hexUpper
            (service.GetLeaderboard hexLower (world dbHex)).2).2 with db := broken dbHex }).1
      = .ok [{ UserID := 1, Username := "alice", Score := 10, Rank := 1 }] ∧
    (service.GetLeaderboard hexLower
        { (service.GetLeaderboard hexLower (world dbHex)).2 with db := broken dbHex }).1
      = .ok [{ UserID := 1, Username := "alice", Score := 10, Rank := 1 }] ∧
    leaderboardKey hexLower ≠ leaderboardKey hexUpper := by
  decide

/-- C15 (amended).  The cache entry of a leaderboard is named by the text of
the quiz id.  For one text that `uuid.Parse` accepts and a working cache:
after `GetLeaderboard` and then `InvalidateLeaderboardCache` with that same
text, the invalidation has succeeded, the entry is gone, and the next
`GetLeaderboard` with that text is recomputed from the store: it returns the
snapshot assembled from the rows the store returns now, or the error of the
store.  Any other text names another cache entry. -/
theorem invalidate_same_text_recomputes (uuid : UuidLib) (quizRepo : QuizRepository δ)
    (wsService : WebSocketService ω) (quizID : String) (w : World Redis δ ω) (db2 : δ)
    (hvalid : (uuid.Parse quizID).2 = true)
    (hup : w.redis.Up) :
    ((NewQuizService uuid quizRepo (NewRedisRepository uuid) wsService).InvalidateLeaderboardCache
        quizID
        ((NewQuizService uuid quizRepo (NewRedisRepository uuid) wsService).GetLeaderboard
          quizID w).2).1 = none ∧
    kvGet (leaderboardKey quizID)
      ((NewQuizService uuid quizRepo (NewRedisRepository uuid)
          wsService).InvalidateLeaderboardCache quizID
        ((NewQuizService uuid quizRepo (NewRedisRepository uuid) wsService).GetLeaderboard
          quizID w).2).2.redis.zsets = none ∧
    (∀ rows d, quizRepo.GetParticipants (uuid.Parse quizID).1 db2 = (.ok rows, d) →
      ((NewQuizService uuid quizRepo (NewRedisRepository uuid) wsService).GetLeaderboard quizID
        { ((NewQuizService uuid quizRepo (NewRedisRepository uuid)
              wsService).InvalidateLeaderboardCache quizID
            ((NewQuizService uuid quizRepo (NewRedisRepository uuid) wsService).GetLeaderboard
              quizID w).2).2 with db := db2 }).1
        = .ok (quizService.assemble 0 rows [])) ∧
    (∀ err d, quizRepo.GetParticipants (uuid.Parse quizID).1 db2 = (.error err, d) →
      ((NewQuizService uuid quizRepo (NewRedisRepository uuid) wsService).GetLeaderboard quizID
        { ((NewQuizService uuid quizRepo (NewRedisRepository uuid)
              wsService).InvalidateLeaderboardCache quizID
            ((NewQuizService uuid quizRepo (NewRedisRepository uuid) wsService).GetLeaderboard
              quizID w).2).2 with db := db2 }).1
        = .error err) ∧
    (∀ other : String, other ≠ quizID → leaderboardKey other ≠ leaderboardKey quizID) := by
  have hup1 := GetLeaderboard_keeps_up uuid quizRepo wsService quizID w hup
  generalize ((NewQuizService uuid quizRepo (NewRedisRepository uuid) wsService).GetLeaderboard
    quizID w).2 = w1 at hup1 ⊢
  have hdel := hup1.Del (leaderboardKey quizID)
  have hfail : w1.redis.failing = false := hup1.failing
  have hinv : (NewQuizService uuid quizRepo (NewRedisRepository uuid)
      wsService).InvalidateLeaderboardCache quizID w1
      = (none, { w1 with redis := (w1.redis.Del (leaderboardKey quizID)).2 }) := by
    simp [quizService.InvalidateLeaderboardCache, NewQuizService, NewRedisRepository,
      redisRepository.DeleteKey, Redis.Del, hfail, leaderboardKey]
  rw [hinv]
  have hread := redisGetLeaderboard_up uuid quizID _ hdel.1
  rw [hdel.2] at hread
  have hmiss : ∀ cached,
      ((NewQuizService uuid quizRepo (NewRedisRepository uuid) wsService).redisRepo.GetLeaderboard
        quizID ({ ({ w1 with redis := (w1.redis.Del (leaderboardKey quizID)).2 } :
          World Redis δ ω) with db := db2 }).redis).1 = .ok cached → cached.length = 0 := by
    intro cached hc
    have hc2 : (redisRepository.GetLeaderboard uuid quizID
        (w1.redis.Del (leaderboardKey quizID)).2).1 = .ok cached := hc
    rw [hread.1] at hc2
    cases hc2
    rfl
  refine ⟨rfl, hdel.2, ?_, ?_, ?_⟩
  · intro rows d hs
    rw [GetLeaderboard_miss _ quizID _ hvalid hmiss]
    exact fromStore_ok _ _ _ _ rows d hs
  · intro err d hs
    rw [GetLeaderboard_miss _ quizID _ hvalid hmiss]
    exact fromStore_error _ _ _ _ err d hs
  · intro other hne hkey
    exact hne (leaderboardKey_injective other quizID hkey)

/-- Witness of the amended C15: the lower-case text is used for all three calls. -/
theorem invalidate_same_text_recomputes_witness :
    (service.InvalidateLeaderboardCache hexLower
        (service.GetLeaderboard hexLower (world dbHex)).2).1 = none ∧
    kvGet (leaderboardKey hexLower)
      (service.InvalidateLeaderboardCache hexLower
        (service.GetLeaderboard hexLower (world dbHex)).2).2.redis.zsets = none ∧
    (∀ rows d, NewQuizRepository.GetParticipants (googleUuid.Parse hexLower).1 (broken dbHex)
        = (.ok rows, d) →
      (service.GetLeaderboard hexLower
        { (service.InvalidateLeaderboardCache hexLower
            (service.GetLeaderboard hexLower (world dbHex)).2).2 with db := broken dbHex }).1
        = .ok (quizService.assemble 0 rows [])) ∧
    (∀ err d, NewQuizRepository.GetParticipants (googleUuid.Parse hexLower).1 (broken dbHex)
        = (.error err, d) →
      (service.GetLeaderboard hexLower
        { (service.InvalidateLeaderboardCache hexLower
            (service.GetLeaderboard hexLower (world dbHex)).2).2 with db := broken dbHex }).1
        = .error err) ∧
    (∀ other : String, other ≠ hexLower → leaderboardKey other ≠ leaderboardKey hexLower) :=
  invalidate_same_text_recomputes googleUuid NewQuizRepository (NewWebSocketService marshal)
    hexLower (world dbHex) (broken dbHex) (by decide) (fun _ => rfl)

end CacheKeys

/-! ## Scoring an answer -/

section Scoring

open Demo

variable {ω : Type}

/-- In a table with a primary key, the rows with the id of a given row are that row. -/
theorem filter_id_eq_singleton (l : List Question) (q : Question)
    (hpk : (l.map (fun x => x.ID)).Nodup) (hq : q ∈ l) :
    l.filter (fun x => decide (x.ID = q.ID)) = [q] := by
  induction l with
  | nil => cases hq
  | cons x rest ih =>
    simp only [List.map_cons, List.nodup_cons] at hpk
    rcases List.mem_cons.mp hq with hx | hx
    · subst hx
      have hnone : rest.filter (fun x => decide (x.ID = q.ID)) = [] := by
        rw [List.filter_eq_nil_iff]
        intro y hy
        simp only [decide_eq_true_eq]
        intro hid
        exact hpk.1 (by rw [← hid]; exact List.mem_map_of_mem _ hy)
      simp [List.filter_cons, hnone]
    · have hne : x.ID ≠ q.ID := by
        intro hid
        exact hpk.1 (by rw [hid]; exact List.mem_map_of_mem _ hx)
      simp [List.filter_cons, hne, ih hpk.2 hx]

/-- Looking a question up by its id among the questions of its quiz finds it. -/
theorem find_question (l : List Question) (q : Question) (quizUUID : UUID)
    (hpk : (l.map (fun x => x.ID)).Nodup) (hq : q ∈ l) (hquiz : q.QuizSessionID = quizUUID) :
    (l.filter (fun x => decide (x.QuizSessionID = quizUUID))).find?
      (fun x => decide (x.ID = q.ID)) = some q := by
  have hmem : q ∈ l.filter (fun x => decide (x.QuizSessionID = quizUUID)) := by
    simp [List.mem_filter, hq, hquiz]
  cases hf : (l.filter (fun x => decide (x.QuizSessionID = quizUUID))).find?
      (fun x => decide (x.ID = q.ID)) with
  | none =>
    rw [List.find?_eq_none] at hf
    exact absurd (by simp) (hf q hmem)
  | some x =>
    have hx1 := List.find?_some hf
    have hx2 := List.mem_of_find?_eq_some hf
    simp only [decide_eq_true_eq] at hx1
    have hxl : x ∈ l := (List.mem_filter.mp hx2).1
    have hsing := filter_id_eq_singleton l q hpk hq
    have : x ∈ l.filter (fun x => decide (x.ID = q.ID)) := by
      simp [List.mem_filter, hxl, hx1]
    rw [hsing, List.mem_singleton] at this
    rw [this]

/-- The aggregate of a user after one more answer row was stored: the
aggregate before, plus what the row earns when it is a row of that user for a
question of that quiz. -/
theorem sumUserScore_append (db db2 : Db) (a : UserAnswer) (q : Question)
    (userID quizID : UUID)
    (hquestions : db2.questions = db.questions)
    (hanswers : db2.user_answers = db.user_answers ++ [a])
    (hpk : (db.questions.map (fun x => x.ID)).Nodup) (hq : q ∈ db.questions)
    (hid : a.QuestionID = q.ID) :
    db2.sumUserScore userID quizID
      = db.sumUserScore userID quizID
        + (if a.UserID = userID ∧ q.QuizSessionID = quizID then earned (a, q) else 0) := by
  have hsing := filter_id_eq_singleton db.questions q hpk hq
  have hans : db2.answered = db.answered ++ [(a, q)] := by
    simp only [Db.answered, hquestions, hanswers, List.map_append, List.flatten_append,
      List.map_cons, List.map_nil, List.flatten_cons, List.flatten_nil, List.append_nil, hid,
      hsing]
  simp only [Db.sumUserScore, hans, List.filter_append, List.map_append, List.sum_append]
  by_cases hc : a.UserID = userID ∧ q.QuizSessionID = quizID
  · simp [hc, List.filter_cons]
  · simp [hc, List.filter_cons]

/-- What `GetQuiz` returns when the cached copy of the quiz, if there is one,
holds the questions of the store: a quiz with the questions of the store, the
tables of the store being left as they were. -/
theorem GetQuiz_questions (uuid : UuidLib) (wsService : WebSocketService ω) (quizID : String)
    (w w1 : World Redis Db ω) (quiz : QuizSession)
    (hcache : ∀ session, kvGet (quizKey quizID) w.redis.strs = some (CacheValue.quizJson session) →
      session.Questions
        = w.db.questions.filter (fun x => decide (x.QuizSessionID = (uuid.Parse quizID).1)))
    (hok : (NewQuizService uuid NewQuizRepository (NewRedisRepository uuid) wsService).GetQuiz
      quizID w = (.ok quiz, w1)) :
    quiz.Questions
        = w.db.questions.filter (fun x => decide (x.QuizSessionID = (uuid.Parse quizID).1)) ∧
      w1.db.questions = w.db.questions ∧ w1.db.user_answers = w.db.user_answers := by
  unfold quizService.GetQuiz at hok
  by_cases hp : (uuid.Parse quizID).2 = false
  · simp [NewQuizService, hp] at hok
  · simp only [NewQuizService, NewRedisRepository, NewQuizRepository, hp, if_false] at hok
    rcases hc : redisRepository.GetQuizSession quizID w.redis with ⟨res, r1⟩
    rw [hc] at hok
    have hget : redisRepository.GetQuizSession quizID w.redis = (res, r1) := hc
    unfold redisRepository.GetQuizSession Redis.Get at hget
    cases res with
    | ok cached =>
      simp only [Prod.mk.injEq, Except.ok.injEq] at hok
      obtain ⟨hq, hw⟩ := hok
      refine ⟨?_, rfl, rfl⟩
      cases hf : w.redis.failing with
      | true => simp [hf] at hget
      | false =>
        cases hk : kvGet (quizKey quizID) w.redis.strs with
        | none => simp [hf, hk] at hget
        | some v =>
          cases v with
          | text t => simp [hf, hk] at hget
          | quizJson session =>
            simp only [hf, hk, Bool.false_eq_true, if_false, Prod.mk.injEq,
              Except.ok.injEq] at hget
            rw [← hget.1]
            exact hcache session hk
    | error e =>
      simp only at hok
      have ht := quizRepository_GetQuiz_tables (uuid.Parse quizID).1 w.db
      rcases hd : quizRepository.GetQuiz (uuid.Parse quizID).1 w.db with ⟨got, d1⟩
      have hd2 : quizRepository.GetQuiz (uuid.Parse quizID).1 w.db = (got, d1) := hd
      rw [hd] at hok ht
      cases got with
      | error e2 => simp at hok
      | ok stored =>
        simp only [Prod.mk.injEq, Except.ok.injEq] at hok
        obtain ⟨hq, hw⟩ := hok
        refine ⟨?_, ht.1, ht.2.2.1⟩
        unfold quizRepository.GetQuiz at hd2
        cases hf : w.db.failing with
        | true => simp [hf] at hd2
        | false =>
          cases hfind : w.db.quiz_sessions.find?
              (fun q => decide (q.ID = (uuid.Parse quizID).1)) with
          | none => simp [hf, hfind] at hd2
          | some row =>
            simp only [hf, hfind, Bool.false_eq_true, if_false, Prod.mk.injEq,
              Except.ok.injEq] at hd2
            rw [← hd2.1]

/-- C13.  Let `q` be a question of the quiz in the store (question ids being a
primary key), addressed by the request, the cached copy of the quiz, if there
is one, holding the questions of the store.  A `SubmitAnswer` that succeeds
returns `Correct = true` exactly when the submitted answer equals the correct
answer of `q`, `Points` equal to the points of `q` when correct and 0
otherwise, and `NewScore` equal to the aggregate score the store held for the
user and the quiz before the call plus `Points`. -/
theorem SubmitAnswer_scores (uuid : UuidLib) (wsService : WebSocketService ω)
    (userID quizID : String) (req : SubmitAnswerRequest) (newID : UUID) (now : Time)
    (w : World Redis Db ω) (q : Question) (resp : SubmitAnswerResponse)
    (hq : q ∈ w.db.questions)
    (hquiz : q.QuizSessionID = (uuid.Parse quizID).1)
    (hid : q.ID = (uuid.Parse req.QuestionID).1)
    (hpk : (w.db.questions.map (fun x => x.ID)).Nodup)
    (hcache : ∀ session, kvGet (quizKey quizID) w.redis.strs = some (CacheValue.quizJson session) →
      session.Questions
        = w.db.questions.filter (fun x => decide (x.QuizSessionID = (uuid.Parse quizID).1)))
    (hcall : ((NewQuizService uuid NewQuizRepository (NewRedisRepository uuid)
      wsService).SubmitAnswer userID quizID req newID now w).1 = .ok resp) :
    (resp.Correct = true ↔ req.Answer = q.CorrectAnswer) ∧
    resp.Points = (if req.Answer = q.CorrectAnswer then q.Points else 0) ∧
    resp.NewScore
      = w.db.sumUserScore (uuid.Parse userID).1 (uuid.Parse quizID).1 + resp.Points := by
  unfold quizService.SubmitAnswer at hcall
  rcases hg : (NewQuizService uuid NewQuizRepository (NewRedisRepository uuid)
      wsService).GetQuiz quizID w with ⟨res, w1⟩
  rw [hg] at hcall
  cases res with
  | error e => simp at hcall
  | ok quiz =>
    obtain ⟨hqs, hw1q, hw1a⟩ := GetQuiz_questions uuid wsService quizID w w1 quiz hcache hg
    have hfind : quiz.Questions.find? (fun x => decide (x.ID = (uuid.Parse req.QuestionID).1))
        = some q := by
      rw [hqs, ← hid]
      exact find_question w.db.questions q _ hpk hq hquiz
    simp only [NewQuizService, NewQuizRepository, hfind] at hcall
    obtain ⟨answer, hans⟩ : ∃ answer : UserAnswer, answer = UserAnswer.mk newID
        (uuid.Parse userID).1 (uuid.Parse req.QuestionID).1 req.Answer
        (decide (q.CorrectAnswer = req.Answer)) now := ⟨_, rfl⟩
    rw [← hans] at hcall
    rcases hs : quizRepository.SaveAnswer answer w1.db with ⟨saved, d2⟩
    have hs2 : quizRepository.SaveAnswer answer w1.db = (saved, d2) := hs
    rw [hs] at hcall
    cases saved with
    | some e => simp at hcall
    | none =>
      simp only at hcall
      rcases hu : quizRepository.GetUserScore (uuid.Parse userID).1 (uuid.Parse quizID).1 d2
        with ⟨score, d3⟩
      have hu2 : quizRepository.GetUserScore (uuid.Parse userID).1 (uuid.Parse quizID).1 d2
        = (score, d3) := hu
      rw [hu] at hcall
      cases score with
      | error e => simp at hcall
      | ok newScore =>
        simp only [Except.ok.injEq] at hcall
        have hd2 : d2.questions = w.db.questions ∧ d2.user_answers = w.db.user_answers ++ [answer] := by
          unfold quizRepository.SaveAnswer at hs2
          cases hf : w1.db.failing with
          | true => simp [hf] at hs2
          | false =>
            cases hdup : w1.db.user_answers.any (fun a => decide (a.ID = answer.ID)) with
            | true => simp [hf, hdup] at hs2
            | false =>
              simp only [hf, hdup, Bool.false_eq_true, if_false, Prod.mk.injEq, true_and] at hs2
              rw [← hs2]
              exact ⟨hw1q, by simp [Db.tick, hw1a]⟩
        have hscore : newScore = d2.sumUserScore (uuid.Parse userID).1 (uuid.Parse quizID).1 := by
          unfold quizRepository.GetUserScore at hu2
          cases hf : d2.failing with
          | true => simp [hf] at hu2
          | false =>
            simp only [hf, Bool.false_eq_true, if_false, Prod.mk.injEq, Except.ok.injEq] at hu2
            exact hu2.1.symm
        have hsum := sumUserScore_append w.db d2 answer q (uuid.Parse userID).1
          (uuid.Parse quizID).1 hd2.1 hd2.2 hpk hq (by rw [hans]; exact hid.symm)
        have hmine : answer.UserID = (uuid.Parse userID).1 ∧
            q.QuizSessionID = (uuid.Parse quizID).1 := ⟨by rw [hans], hquiz⟩
        rw [if_pos hmine] at hsum
        have hearn : earned (answer, q)
            = if decide (q.CorrectAnswer = req.Answer) = true then q.Points else 0 := by
          simp only [earned, hans]
        rw [← hcall]
        refine ⟨?_, ?_, ?_⟩
        · simp only [decide_eq_true_eq]
          exact eq_comm
        · by_cases hc : q.CorrectAnswer = req.Answer
          · simp [hc]
          · have hc2 : ¬ req.Answer = q.CorrectAnswer := fun e => hc e.symm
            simp [hc, hc2]
        · simp only
          rw [hscore, hsum, hearn]

/-- Witness of C13: the first user, who holds 20 points, answers `q1` correctly. -/
theorem SubmitAnswer_scores_witness :
    (({ Correct := true, NewScore := 30, Points := 10 } : SubmitAnswerResponse).Correct = true ↔
      ({ QuestionID := q1ID, Answer := "A" } : SubmitAnswerRequest).Answer = q1.CorrectAnswer) ∧
    ({ Correct := true, NewScore := 30, Points := 10 } : SubmitAnswerResponse).Points
      = (if ({ QuestionID := q1ID, Answer := "A" } : SubmitAnswerRequest).Answer
          = q1.CorrectAnswer then q1.Points else 0) ∧
    ({ Correct := true, NewScore := 30, Points := 10 } : SubmitAnswerResponse).NewScore
      = (world dbAliceBob).db.sumUserScore (googleUuid.Parse user1ID).1
          (googleUuid.Parse Demo.quizID).1
        + ({ Correct := true, NewScore := 30, Points := 10 } : SubmitAnswerResponse).Points :=
  SubmitAnswer_scores googleUuid (NewWebSocketService marshal) user1ID Demo.quizID
    { QuestionID := q1ID, Answer := "A" } 900 5 (world dbAliceBob) q1
    { Correct := true, NewScore := 30, Points := 10 }
    (by decide) (by decide) (by decide) (by decide)
    (by
      intro session hs
      have h0 : kvGet (quizKey Demo.quizID) (world dbAliceBob).redis.strs = none := by decide
      rw [h0] at hs
      cases hs)
    (by decide)

end Scoring

end QuizApp
